import Mathlib

/-!
Verification development for the softball team optimizer
(`web/optimizer.js`).  The JavaScript core is shallowly embedded:

* JS numbers are modelled as `ℚ` (all optimizer arithmetic is exact on
  the values the program manipulates);
* the ambient `Math.random()` source is modelled as a tape
  `tape : Nat → ℚ` of unit-interval draws together with an explicit
  position counter that every sampling operation advances by one, in
  the exact order the source calls `Math.random()`;
* a `Team` object holds references into the global player list, so a
  decoded team is embedded as the list of player *indices* it holds;
* an individual is a `List Nat` of per-player team indices, exactly as
  in the source.
-/

namespace TeamSolver

/-- A player record, as built by the `Player` constructor in the source.
Only the fields the optimizer core reads are embedded; the remaining
numeric sub-scores (batting average, slugging, ...) are stored by the
constructor but never consulted by any core algorithm.  The source
normalizes an absent or zero co-assign id to `null` (`data.coAssignGroup
|| null`), embedded as `none`. -/
structure Player where
  name : String
  position : String
  totalScore : ℚ
  attendance : ℚ
  isCoach : Bool
  coAssignGroup : Option Nat
deriving DecidableEq, Repr

/-- Default player used for out-of-range index accesses; such accesses
never occur on the executions the theorems quantify over. -/
def defaultPlayer : Player := ⟨"", "", 0, 1, false, none⟩

/-- The `TeamOptimizer` constructor data: the player list and the
configuration fields (`numTeams`, `populationSize`, `generations`). -/
structure Opt where
  players : List Player
  numTeams : Nat
  populationSize : Nat
  generations : Nat
deriving Repr

def Opt.numPlayers (opt : Opt) : Nat := opt.players.length

/-- Insert index `i` into the entry for group key `g`, keeping keys in
ascending order: JavaScript objects enumerate integer-like keys in
ascending numeric order, which is the order `Object.entries`,
`Object.values` and `Object.keys` expose `this.coAssignGroups` in. -/
def addToGroups : List (Nat × List Nat) → Nat → Nat → List (Nat × List Nat)
  | [], g, i => [(g, [i])]
  | (k, l) :: rest, g, i =>
    if g = k then (k, l ++ [i]) :: rest
    else if g < k then (g, [i]) :: (k, l) :: rest
    else (k, l) :: addToGroups rest g i

/-- The `forEach` loop of `buildCoAssignGroups`, with `i` the index of
the next player to examine. -/
def buildGo : List Player → Nat → List (Nat × List Nat) → List (Nat × List Nat)
  | [], _, acc => acc
  | p :: ps, i, acc =>
    buildGo ps (i + 1)
      (match p.coAssignGroup with
       | some g => addToGroups acc g i
       | none => acc)

/-- `TeamOptimizer.buildCoAssignGroups`: map from group id to the list
of indices of the players carrying that id. -/
def coAssignGroups (opt : Opt) : List (Nat × List Nat) :=
  buildGo opt.players 0 []

/-- `Object.values(this.coAssignGroups).some(group => group.includes(i))`,
the membership test the genetic operators use. -/
def isCoAssigned (opt : Opt) (i : Nat) : Bool :=
  (coAssignGroups opt).any (fun gl => gl.2.contains i)

/-- `Math.floor(Math.random() * n)`: one tape draw, scaled and floored;
returns the drawn value and the advanced tape position. -/
def randFloor (tape : Nat → ℚ) (pos n : Nat) : Nat × Nat :=
  (⌊tape pos * (n : ℚ)⌋.toNat, pos + 1)

/-- A tape is valid when every cell is a genuine `Math.random()` value,
i.e. lies in `[0, 1)`. -/
def ValidTape (tape : Nat → ℚ) : Prop := ∀ k, 0 ≤ tape k ∧ tape k < 1

/-- `teams[t].push(i)` on a team array: out-of-range `t` leaves the
array unchanged (the source would throw there; no execution treated by
the theorems reaches that case). -/
def pushIdx (teams : List (List Nat)) (t i : Nat) : List (List Nat) :=
  teams.set t (teams.getD t [] ++ [i])

/-- The `forEach` loop of `decodeIndividual`, with `i` the index of the
next player to place. -/
def decodeGo : List Nat → Nat → List (List Nat) → List (List Nat)
  | [], _, teams => teams
  | c :: rest, i, teams => decodeGo rest (i + 1) (pushIdx teams c i)

/-- `TeamOptimizer.decodeIndividual`: build `numTeams` empty teams and
place every player index into the team named by its cell. -/
def decodeIndividual (opt : Opt) (ind : List Nat) : List (List Nat) :=
  decodeGo ind 0 (List.replicate opt.numTeams [])

def getPlayer (opt : Opt) (i : Nat) : Player := opt.players.getD i defaultPlayer

/-- `Player.isOutfielder`. -/
def isOutfielder (p : Player) : Bool := p.position == "CF" || p.position == "OF"

/-- The match test of `swapPositionPlayer`: for `'OF'` the outfield
capability, otherwise exact position equality. -/
def matchesPos (p : Player) (pos : String) : Bool :=
  if pos == "OF" then isOutfielder p else p.position == pos

/-- `Team.getPositionCount` on a decoded team (list of player indices). -/
def getPositionCount (opt : Opt) (team : List Nat) (pos : String) : Nat :=
  if pos == "OF" then (team.filter (fun i => isOutfielder (getPlayer opt i))).length
  else (team.filter (fun i => (getPlayer opt i).position == pos)).length

/-- `values.reduce((a, b) => a + b, 0)`. -/
def sumQ (l : List ℚ) : ℚ := l.foldl (· + ·) 0

/-- `Team.getAverageSkill`. -/
def getAverageSkill (opt : Opt) (team : List Nat) : ℚ :=
  if team.length = 0 then 0
  else sumQ (team.map (fun i => (getPlayer opt i).totalScore)) / (team.length : ℚ)

/-- `Team.getAverageAttendance`. -/
def getAverageAttendance (opt : Opt) (team : List Nat) : ℚ :=
  if team.length = 0 then 0
  else sumQ (team.map (fun i => (getPlayer opt i).attendance)) / (team.length : ℚ)

/-- `Team.getSkillVariance`. -/
def getSkillVariance (opt : Opt) (team : List Nat) : ℚ :=
  if team.length < 2 then 0
  else
    sumQ (team.map (fun i => ((getPlayer opt i).totalScore - getAverageSkill opt team) ^ 2)) /
      (team.length : ℚ)

/-- `TeamOptimizer.variance`: population variance with the
short-collection guard. -/
def variance (values : List ℚ) : ℚ :=
  if values.length < 2 then 0
  else
    sumQ (values.map (fun v => (v - sumQ values / (values.length : ℚ)) ^ 2)) /
      (values.length : ℚ)

def requiredPositions : List String := ["SS", "CF", "2B", "3B", "P", "1B", "C"]

/-- The per-team contribution of the position-constraint block of
`evaluate`: 10000 per missing mandatory role, 5000 per missing unit of
outfield capability below 3, 2000 per missing player below size 9. -/
def teamPenalty (opt : Opt) (team : List Nat) : ℚ :=
  (requiredPositions.foldl
      (fun acc pos => if getPositionCount opt team pos < 1 then acc + 10000 else acc) 0) +
    (if getPositionCount opt team "OF" < 3 then
       5000 * ((3 : ℚ) - (getPositionCount opt team "OF" : ℚ)) else 0) +
    (if team.length < 9 then 2000 * ((9 : ℚ) - (team.length : ℚ)) else 0)

/-- The co-assign block of `evaluate`: 500 per group whose members map
to more than one team (`new Set(...).size > 1`). -/
def groupSplitPenalty (opt : Opt) (ind : List Nat) : ℚ :=
  (coAssignGroups opt).foldl
    (fun acc gl =>
      if 1 < (gl.2.map (fun i => ind.getD i 0)).dedup.length then acc + 500 else acc) 0

def minNat : List Nat → Nat
  | [] => 0
  | x :: xs => xs.foldl Nat.min x

def maxNat : List Nat → Nat
  | [] => 0
  | x :: xs => xs.foldl Nat.max x

/-- The coach-distribution block of `evaluate`. -/
def coachPenalty (opt : Opt) (teams : List (List Nat)) : ℚ :=
  if 0 < (opt.players.filter (fun p => p.isCoach)).length then
    if opt.numTeams ≤ (opt.players.filter (fun p => p.isCoach)).length then
      (teams.map (fun team => (team.filter (fun i => (getPlayer opt i).isCoach)).length)).foldl
        (fun acc c =>
          if c = 0 then acc + 50
          else if 1 < c then acc + 30 * ((c : ℚ) - 1) else acc) 0
    else
      (teams.map (fun team => (team.filter (fun i => (getPlayer opt i).isCoach)).length)).foldl
        (fun acc c => if 1 < c then acc + 50 * ((c : ℚ) - 1) else acc) 0
  else 0

/-- `TeamOptimizer.evaluate`. -/
def evaluate (opt : Opt) (ind : List Nat) : ℚ :=
  let teams := decodeIndividual opt ind
  let posPen := teams.foldl (fun acc team => acc + teamPenalty opt team) 0
  let sizes := teams.map List.length
  let sizePen : ℚ :=
    if 1 < maxNat sizes - minNat sizes then
      3000 * ((maxNat sizes - minNat sizes - 1 : Nat) : ℚ) else 0
  posPen + groupSplitPenalty opt ind + sizePen +
    variance (teams.map (getAverageSkill opt)) * 50 +
    variance (teams.map (getAverageAttendance opt)) * 10 +
    (sumQ (teams.map (getSkillVariance opt)) / (teams.length : ℚ)) * (1 / 2) +
    coachPenalty opt teams

/-- Write `a` at every index of `idxs` (the `forEach` assignments the
source performs on whole co-assign groups). -/
def setAll {α : Type} (l : List α) (idxs : List Nat) (a : α) : List α :=
  idxs.foldl (fun acc i => acc.set i a) l

/-- First loop of `createIndividual`: give each co-assign group one
random team and mark its members assigned. -/
def assignGroups (tape : Nat → ℚ) (nT : Nat) :
    List (Nat × List Nat) → List Nat → List Bool → Nat → List Nat × List Bool × Nat
  | [], ind, asg, p => (ind, asg, p)
  | gl :: rest, ind, asg, p =>
    let r := randFloor tape p nT
    assignGroups tape nT rest (setAll ind gl.2 r.1) (setAll asg gl.2 true) r.2

/-- Second loop of `createIndividual`: give every still-unassigned
player an independent random team. -/
def assignRest (tape : Nat → ℚ) (nT : Nat) (asg : List Bool) :
    List Nat → List Nat → Nat → List Nat × Nat
  | [], ind, p => (ind, p)
  | i :: rest, ind, p =>
    if asg.getD i false then assignRest tape nT asg rest ind p
    else
      let r := randFloor tape p nT
      assignRest tape nT asg rest (ind.set i r.1) r.2

/-- `TeamOptimizer.createIndividual`. -/
def createIndividual (opt : Opt) (tape : Nat → ℚ) (p : Nat) : List Nat × Nat :=
  let s := assignGroups tape opt.numTeams (coAssignGroups opt)
    (List.replicate opt.numPlayers 0) (List.replicate opt.numPlayers false) p
  assignRest tape opt.numTeams s.2.1 (List.range opt.numPlayers) s.1 s.2.2

/-- The donor-candidate list of `swapPositionPlayer`: players of the
donor team matching the needed position and belonging to no co-assign
group. -/
def swapDonors (opt : Opt) (ind : List Nat) (donor : Nat) (pos : String) : List Nat :=
  (List.range ind.length).filter (fun i =>
    decide (ind.getD i 0 = donor) && matchesPos (getPlayer opt i) pos && !isCoAssigned opt i)

/-- `TeamOptimizer.swapPositionPlayer`: move one random ungrouped
qualifying donor player to the recipient team, or report failure. -/
def swapPositionPlayer (opt : Opt) (tape : Nat → ℚ) (ind : List Nat)
    (donor recip : Nat) (pos : String) (p : Nat) : List Nat × Bool × Nat :=
  let donors := swapDonors opt ind donor pos
  if 0 < donors.length then
    let r := randFloor tape p donors.length
    (ind.set (donors.getD r.1 0) recip, true, r.2)
  else (ind, false, p)

/-- The indices currently on `fromT` (`fromTeamPlayerIndices` in
`movePlayer`). -/
def moveFromIdx (ind : List Nat) (fromT : Nat) : List Nat :=
  (List.range ind.length).filter (fun i => decide (ind.getD i 0 = fromT))

/-- The ungrouped indices among them (`nonCoAssignPlayers`). -/
def moveNonCo (opt : Opt) (ind : List Nat) (fromT : Nat) : List Nat :=
  (moveFromIdx ind fromT).filter (fun i => !isCoAssigned opt i)

/-- `TeamOptimizer.movePlayer`: move a random player of `fromT` to
`toT`, preferring ungrouped players and relocating a whole group when
only grouped players remain. -/
def movePlayer (opt : Opt) (tape : Nat → ℚ) (ind : List Nat)
    (fromT toT : Nat) (p : Nat) : List Nat × Nat :=
  if 0 < (moveNonCo opt ind fromT).length then
    let r := randFloor tape p (moveNonCo opt ind fromT).length
    (ind.set ((moveNonCo opt ind fromT).getD r.1 0) toT, r.2)
  else if 0 < (moveFromIdx ind fromT).length then
    let r := randFloor tape p (moveFromIdx ind fromT).length
    match (coAssignGroups opt).find?
        (fun gl => gl.2.contains ((moveFromIdx ind fromT).getD r.1 0)) with
    | some gl => (setAll ind gl.2 toT, r.2)
    | none => (ind.set ((moveFromIdx ind fromT).getD r.1 0) toT, r.2)
  else (ind, p)

/-- First index of `a` in the list (`Array.prototype.indexOf`; the
absent case, which returns -1 in JS, is never reached here and is
modelled as the list length falling out of the recursion). -/
def idx0 {α : Type} [DecidableEq α] (a : α) : List α → Nat
  | [] => 0
  | x :: xs => if x = a then 0 else idx0 a xs + 1

/-- `TeamOptimizer.balanceTeamSizes` (its `teams` and `targetSize`
parameters are never read by the source body and are omitted). -/
def balanceTeamSizes (opt : Opt) (tape : Nat → ℚ) (ind : List Nat)
    (sizes : List Nat) (p : Nat) : List Nat × Nat :=
  if 1 < maxNat sizes - minNat sizes then
    movePlayer opt tape ind (idx0 (maxNat sizes) sizes) (idx0 (minNat sizes) sizes) p
  else (ind, p)

/-- `TeamOptimizer.checkPositionsCovered`. -/
def checkPositionsCovered (opt : Opt) (teams : List (List Nat)) : Bool :=
  teams.all (fun team =>
    requiredPositions.all (fun pos => decide (1 ≤ getPositionCount opt team pos)) &&
      decide (3 ≤ getPositionCount opt team "OF"))

/-- `for (teamId = 0; ...)` over a team list, with indices attached. -/
def withIdx {α : Type} : Nat → List α → List (Nat × α)
  | _, [] => []
  | i, x :: xs => (i, x) :: withIdx (i + 1) xs

/-- One donor tier of `fixMissingPosition`: scan the teams, skip the
needy team, and on every donor whose count of the needed position
exceeds `thresh` attempt a swap, stopping at the first success. -/
def tierLoop (opt : Opt) (tape : Nat → ℚ) (needy : Nat) (pos : String) (thresh : Nat) :
    List (Nat × List Nat) → List Nat → Nat → List Nat × Bool × Nat
  | [], ind, p => (ind, false, p)
  | (tid, team) :: rest, ind, p =>
    if tid = needy then tierLoop opt tape needy pos thresh rest ind p
    else if thresh < getPositionCount opt team pos then
      match swapPositionPlayer opt tape ind tid needy pos p with
      | (ind', true, p') => (ind', true, p')
      | (ind', false, p') => tierLoop opt tape needy pos thresh rest ind' p'
    else tierLoop opt tape needy pos thresh rest ind p

/-- `TeamOptimizer.fixMissingPosition`: surplus donors first
(count > 3 for `'OF'`, count > 1 otherwise), then the forceful tier
(count > 2 for `'OF'`, count > 0 otherwise). -/
def fixMissingPosition (opt : Opt) (tape : Nat → ℚ) (ind : List Nat)
    (teams : List (List Nat)) (needy : Nat) (pos : String) (p : Nat) : List Nat × Bool × Nat :=
  match tierLoop opt tape needy pos (if pos == "OF" then 3 else 1) (withIdx 0 teams) ind p with
  | (ind', true, p') => (ind', true, p')
  | (ind', false, p') =>
    tierLoop opt tape needy pos (if pos == "OF" then 2 else 0) (withIdx 0 teams) ind' p'

/-- Inner loop of `repairPositions`: the mandatory single-occupancy
roles of one team. -/
def posLoop (opt : Opt) (tape : Nat → ℚ) (teamsList : List (List Nat))
    (tid : Nat) (team : List Nat) :
    List String → List Nat → Nat → List Nat × Bool × Nat
  | [], ind, p => (ind, false, p)
  | pos :: rest, ind, p =>
    if getPositionCount opt team pos < 1 then
      match fixMissingPosition opt tape ind teamsList tid pos p with
      | (ind', true, p') => (ind', true, p')
      | (ind', false, p') => posLoop opt tape teamsList tid team rest ind' p'
    else posLoop opt tape teamsList tid team rest ind p

/-- Outer loop of `repairPositions`: every team's roles, then its
outfield requirement. -/
def teamsLoop (opt : Opt) (tape : Nat → ℚ) (teamsList : List (List Nat)) :
    List (Nat × List Nat) → List Nat → Nat → List Nat × Bool × Nat
  | [], ind, p => (ind, false, p)
  | (tid, team) :: rest, ind, p =>
    match posLoop opt tape teamsList tid team requiredPositions ind p with
    | (ind', true, p') => (ind', true, p')
    | (ind', false, p') =>
      if getPositionCount opt team "OF" < 3 then
        match fixMissingPosition opt tape ind' teamsList tid "OF" p' with
        | (ind'', true, p'') => (ind'', true, p'')
        | (ind'', false, p'') => teamsLoop opt tape teamsList rest ind'' p''
      else teamsLoop opt tape teamsList rest ind' p'

/-- `TeamOptimizer.repairPositions`. -/
def repairPositions (opt : Opt) (tape : Nat → ℚ) (ind : List Nat)
    (teamsList : List (List Nat)) (p : Nat) : List Nat × Bool × Nat :=
  teamsLoop opt tape teamsList (withIdx 0 teamsList) ind p

/-- Why a `repairIndividual` run stopped. -/
inductive StopReason where
  | success
  | noMove
  | fuelOut
deriving DecidableEq, Repr

/-- Result of the repair loop, instrumented with the number of passes
executed and the stop reason. -/
structure RepairOut where
  ind : List Nat
  pos : Nat
  passes : Nat
  reason : StopReason
deriving DecidableEq, Repr

/-- The `for (iteration ...)` loop of `repairIndividual`: rebalance
sizes first, then stop on full coverage, else attempt one role-repair
move and bail out if none exists. -/
def repairGo (opt : Opt) (tape : Nat → ℚ) :
    Nat → List Nat → Nat → RepairOut
  | 0, ind, p => ⟨ind, p, 0, .fuelOut⟩
  | fuel + 1, ind, p =>
    let teams := decodeIndividual opt ind
    let sizes := teams.map List.length
    if 1 < maxNat sizes - minNat sizes then
      let r := balanceTeamSizes opt tape ind sizes p
      let out := repairGo opt tape fuel r.1 r.2
      ⟨out.ind, out.pos, out.passes + 1, out.reason⟩
    else if checkPositionsCovered opt teams then ⟨ind, p, 1, .success⟩
    else
      match repairPositions opt tape ind teams p with
      | (ind', true, p') =>
        let out := repairGo opt tape fuel ind' p'
        ⟨out.ind, out.pos, out.passes + 1, out.reason⟩
      | (ind', false, p') => ⟨ind', p', 1, .noMove⟩

/-- `TeamOptimizer.repairIndividual`: the repair loop with its
`maxIterations = 100` budget. -/
def repairIndividual (opt : Opt) (tape : Nat → ℚ) (ind : List Nat) (p : Nat) :
    List Nat × Nat :=
  ((repairGo opt tape 100 ind p).ind, (repairGo opt tape 100 ind p).pos)

/-- One in-place pair swap of the crossover segment loop. -/
def swapAt (pr : List Nat × List Nat) (idx : Nat) : List Nat × List Nat :=
  (pr.1.set idx (pr.2.getD idx 0), pr.2.set idx (pr.1.getD idx 0))

/-- The list of indices of players in no co-assign group, in index
order (computed identically in `crossover` and `mutate`). -/
def nonCoAssignIdx (opt : Opt) : List Nat :=
  (List.range opt.numPlayers).filter (fun i => !isCoAssigned opt i)

/-- `TeamOptimizer.crossover`: with probability 0.7 swap one contiguous
segment of the ungrouped positions, then repair both offspring. -/
def crossover (opt : Opt) (tape : Nat → ℚ) (ind1 ind2 : List Nat) (p : Nat) :
    List Nat × List Nat × Nat :=
  let s :=
    if tape p < 7 / 10 then
      if 2 < (nonCoAssignIdx opt).length then
        let r1 := randFloor tape (p + 1) (nonCoAssignIdx opt).length
        let r2 := randFloor tape r1.2 ((nonCoAssignIdx opt).length - r1.1)
        let o := (((nonCoAssignIdx opt).drop r1.1).take r2.1).foldl swapAt (ind1, ind2)
        (o.1, o.2, r2.2)
      else (ind1, ind2, p + 1)
    else (ind1, ind2, p + 1)
  let q1 := repairIndividual opt tape s.1 s.2.2
  let q2 := repairIndividual opt tape s.2.1 q1.2
  (q1.1, q2.1, q2.2)

/-- Per-player loop of `mutate` over the ungrouped indices. -/
def mutateLoop (opt : Opt) (tape : Nat → ℚ) :
    List Nat → List Nat → Nat → List Nat × Nat
  | [], ind, p => (ind, p)
  | i :: rest, ind, p =>
    if tape p < 1 / 10 then
      let r := randFloor tape (p + 1) opt.numTeams
      mutateLoop opt tape rest (ind.set i r.1) r.2
    else mutateLoop opt tape rest ind (p + 1)

/-- `TeamOptimizer.mutate`: ungrouped cells mutate independently with
probability 0.1, occasionally one whole group moves, then repair. -/
def mutate (opt : Opt) (tape : Nat → ℚ) (ind : List Nat) (p : Nat) :
    List Nat × Nat :=
  let m := mutateLoop opt tape (nonCoAssignIdx opt) ind p
  let m2 :=
    if 0 < (coAssignGroups opt).length then
      if tape m.2 < 1 / 10 then
        let r1 := randFloor tape (m.2 + 1) (coAssignGroups opt).length
        let r2 := randFloor tape r1.2 opt.numTeams
        (setAll m.1 ((coAssignGroups opt).getD r1.1 (0, [])).2 r2.1, r2.2)
      else (m.1, m.2 + 1)
    else m
  repairIndividual opt tape m2.1 m2.2

/-- First minimum by fitness of the competitor list: the head of the
stable ascending sort the source performs. -/
def pickMin : List (List Nat × ℚ) → List Nat
  | [] => []
  | c :: cs => (cs.foldl (fun best x => if x.2 < best.2 then x else best) c).1

/-- `TeamOptimizer.tournamentSelection` with the default tournament
size 3. -/
def tournamentSelection (opt : Opt) (tape : Nat → ℚ) (popu : List (List Nat))
    (fits : List ℚ) (p : Nat) : List Nat × Nat :=
  let r1 := randFloor tape p popu.length
  let r2 := randFloor tape r1.2 popu.length
  let r3 := randFloor tape r2.2 popu.length
  (pickMin [(popu.getD r1.1 [], fits.getD r1.1 0), (popu.getD r2.1 [], fits.getD r2.1 0),
      (popu.getD r3.1 [], fits.getD r3.1 0)], r3.2)

/-- A progress event as passed to `onProgress`. -/
structure Event where
  generation : Nat
  bestFitness : ℚ
  avgFitness : ℚ
  completed : Bool
deriving DecidableEq, Repr

/-- The evolving state of the generation loop of `optimize`,
instrumented with logs that record what the run produced: the emitted
events, each generation's evaluated population, the best fitness after
each generation, and every individual that ever entered a population. -/
structure GenState where
  population : List (List Nat)
  best : Option (List Nat × ℚ)
  pos : Nat
  events : List Event
  popLog : List (List (List Nat))
  bestLog : List ℚ
  allGen : List (List Nat)

def minQ : List ℚ → ℚ
  | [] => 0
  | x :: xs => xs.foldl min x

/-- `fitnesses.reduce((a, b) => a + b, 0) / fitnesses.length`. -/
def meanQ (l : List ℚ) : ℚ := sumQ l / (l.length : ℚ)

/-- One body of the refill loop of `optimize`: two tournament parents,
crossover, and mutation of both offspring. -/
def makePair (opt : Opt) (tape : Nat → ℚ) (popu : List (List Nat)) (fits : List ℚ)
    (p : Nat) : List Nat × List Nat × Nat :=
  let t1 := tournamentSelection opt tape popu fits p
  let t2 := tournamentSelection opt tape popu fits t1.2
  let c := crossover opt tape t1.1 t2.1 t2.2
  let m1 := mutate opt tape c.1 c.2.2
  let m2 := mutate opt tape c.2.1 m1.2
  (m1.1, m2.1, m2.2)

/-- The `while (newPopulation.length < populationSize)` refill loop:
`need` open slots remain; the second offspring of the last pair is
produced (and its randomness consumed) but dropped when only one slot
is left. -/
def fillPop (opt : Opt) (tape : Nat → ℚ) (popu : List (List Nat)) (fits : List ℚ) :
    Nat → Nat → List (List Nat) × Nat
  | 0, p => ([], p)
  | 1, p =>
    let m := makePair opt tape popu fits p
    ([m.1], m.2.2)
  | n + 2, p =>
    let m := makePair opt tape popu fits p
    let rest := fillPop opt tape popu fits n m.2.2
    (m.1 :: m.2.1 :: rest.1, rest.2)

/-- One generation of `optimize`: evaluate, update the best-ever
individual, emit the 10th-generation progress event, and refill the
population behind the elitist copy of the best. -/
def genStep (opt : Opt) (tape : Nat → ℚ) (gen : Nat) (s : GenState) : GenState :=
  let fits := s.population.map (evaluate opt)
  let best' : Option (List Nat × ℚ) :=
    match s.best with
    | none =>
      if fits.length = 0 then none
      else some (s.population.getD (idx0 (minQ fits) fits) [], minQ fits)
    | some (b, bf) =>
      if fits.length = 0 then some (b, bf)
      else if minQ fits < bf then some (s.population.getD (idx0 (minQ fits) fits) [], minQ fits)
      else some (b, bf)
  let bp := best'.getD ([], 0)
  let rest := fillPop opt tape s.population fits (opt.populationSize - 1) s.pos
  { population := bp.1 :: rest.1
    best := best'
    pos := rest.2
    events :=
      if gen % 10 = 0 then s.events ++ [⟨gen, bp.2, meanQ fits, false⟩] else s.events
    popLog := s.popLog ++ [s.population]
    bestLog := s.bestLog ++ [bp.2]
    allGen := s.allGen ++ (bp.1 :: rest.1) }

/-- The generation loop, `n` generations remaining, `g` the next
generation index. -/
def runGens (opt : Opt) (tape : Nat → ℚ) : Nat → Nat → GenState → GenState
  | 0, _, s => s
  | n + 1, g, s => runGens opt tape n (g + 1) (genStep opt tape g s)

/-- Everything `optimize` produced, including the instrumentation
logs. -/
structure RunResult where
  best : List Nat
  bestFit : ℚ
  teams : List (List Nat)
  events : List Event
  popLog : List (List (List Nat))
  bestLog : List ℚ
  allGen : List (List Nat)
  finalPop : List (List Nat)

/-- The initial-population `Array.from`. -/
def mkPopulation (opt : Opt) (tape : Nat → ℚ) : Nat → Nat → List (List Nat) × Nat
  | 0, p => ([], p)
  | n + 1, p =>
    let c := createIndividual opt tape p
    let rest := mkPopulation opt tape n c.2
    (c.1 :: rest.1, rest.2)

/-- `TeamOptimizer.optimize`, instrumented: seed the population, run
the generations, emit the completion event (whose `avgFitness` field
the source fills with `bestFitness`), and decode the best individual. -/
def optimizeFull (opt : Opt) (tape : Nat → ℚ) (p : Nat) : RunResult :=
  let m := mkPopulation opt tape opt.populationSize p
  let s := runGens opt tape opt.generations 0 ⟨m.1, none, m.2, [], [], [], m.1⟩
  let bp := s.best.getD ([], 0)
  ⟨bp.1, bp.2, decodeIndividual opt bp.1,
    s.events ++ [⟨opt.generations, bp.2, bp.2, true⟩],
    s.popLog, s.bestLog, s.allGen, s.population⟩

/-- The value `optimize` returns: the team list decoded from the best
individual. -/
def optimize (opt : Opt) (tape : Nat → ℚ) (p : Nat) : List (List Nat) :=
  (optimizeFull opt tape p).teams

/-- Well-formedness of an individual: one cell per player, every cell a
team index in `[0, numTeams)`. -/
def ValidInd (opt : Opt) (ind : List Nat) : Prop :=
  ind.length = opt.numPlayers ∧ ∀ t ∈ ind, t < opt.numTeams

/-- The grouping invariant: all members of each co-assign group are
mapped to the same team. -/
def GroupInv (opt : Opt) (ind : List Nat) : Prop :=
  ∀ gl ∈ coAssignGroups opt, ∀ i ∈ gl.2, ∀ j ∈ gl.2, ind[i]? = ind[j]?

/-- Total number of (team, mandatory role) pairs whose role count on
that team is below 1. -/
def missingRoleTotal (opt : Opt) (ind : List Nat) : Nat :=
  ((decodeIndividual opt ind).map (fun team =>
    (requiredPositions.filter (fun pos => decide (getPositionCount opt team pos < 1))).length)).sum

/-- Total number of units by which the teams' outfield-capable counts
fall short of 3. -/
def ofShortTotal (opt : Opt) (ind : List Nat) : Nat :=
  ((decodeIndividual opt ind).map (fun team => 3 - getPositionCount opt team "OF")).sum

/-- Every term of `evaluate` other than the missing-role and
outfield-shortfall penalties. -/
def evaluateRest (opt : Opt) (ind : List Nat) : ℚ :=
  let teams := decodeIndividual opt ind
  let sizes := teams.map List.length
  ((teams.map (fun team =>
      if team.length < 9 then 2000 * ((9 : ℚ) - (team.length : ℚ)) else 0)).sum) +
    groupSplitPenalty opt ind +
    (if 1 < maxNat sizes - minNat sizes then
      3000 * ((maxNat sizes - minNat sizes - 1 : Nat) : ℚ) else 0) +
    variance (teams.map (getAverageSkill opt)) * 50 +
    variance (teams.map (getAverageAttendance opt)) * 10 +
    (sumQ (teams.map (getSkillVariance opt)) / (teams.length : ℚ)) * (1 / 2) +
    coachPenalty opt teams

/-- An ungrouped player with position `posn` and neutral scores. -/
def mkPlayer (posn : String) : Player := ⟨"p", posn, 0, 1, false, none⟩

/-- The all-zero random tape (every draw is 0). -/
def tape0 : Nat → ℚ := fun _ => 0

/-- Two ungrouped shortstops, two teams, population 2, one generation:
the smallest run on which the final generation's offspring outperform
the returned best. -/
def inst2 : Opt := ⟨[mkPlayer "SS", mkPlayer "SS"], 2, 2, 1⟩

/-- One ungrouped center fielder, two teams. -/
def inst3 : Opt := ⟨[mkPlayer "CF"], 2, 1, 1⟩

/-- One center fielder who belongs to co-assign group 1, two teams. -/
def instG : Opt := ⟨[⟨"a", "CF", 0, 1, false, some 1⟩], 2, 1, 1⟩

/-- A co-assign group of two players plus one ungrouped player. -/
def instW : Opt :=
  ⟨[⟨"a", "SS", 0, 1, false, some 1⟩, ⟨"b", "CF", 0, 1, false, some 1⟩, mkPlayer "P"], 2, 2, 1⟩

/-- Zero players and zero teams: a run whose repair loop stops with
full (vacuous) coverage on the first pass. -/
def instE : Opt := ⟨[], 0, 1, 1⟩

/-- The player indices `decodeIndividual` places on team `t` when it
starts numbering players at `i0`: those whose cell equals `t`, in index
order. -/
def bucket (t i0 : Nat) (ind : List Nat) : List Nat :=
  ((withIdx i0 ind).filter (fun pr => pr.2 == t)).map Prod.fst

/-- The running invariant of the generation loop: the population is
never empty; the tracked best individual evaluates to the tracked best
fitness, which bounds every fitness of every logged (evaluated)
population from below; the best individual was drawn from a logged
population; and the per-generation best-fitness log never increases. -/
def RunInv (opt : Opt) (s : GenState) : Prop :=
  s.population ≠ [] ∧
    (∀ b f, s.best = some (b, f) → evaluate opt b = f) ∧
    (∀ b f, s.best = some (b, f) → ∀ popu ∈ s.popLog, ∀ ind ∈ popu, f ≤ evaluate opt ind) ∧
    (s.best = none → s.popLog = [] ∧ s.bestLog = []) ∧
    (∀ b f, s.best = some (b, f) → ∃ popu ∈ s.popLog, b ∈ popu) ∧
    List.Chain' (fun a c => c ≤ a) s.bestLog ∧
    (∀ b f, s.best = some (b, f) → ∀ x ∈ s.bestLog.getLast?, f ≤ x)

/-! ### Arithmetic bridges for the source's `reduce`-style folds -/

theorem foldl_add_q (l : List ℚ) (a : ℚ) : l.foldl (· + ·) a = a + l.sum := by
  induction l generalizing a with
  | nil => simp
  | cons x xs ih => rw [List.foldl_cons, ih, List.sum_cons]; ring

theorem sumQ_eq_sum (l : List ℚ) : sumQ l = l.sum := by
  simp [sumQ, foldl_add_q]

theorem foldl_add_map {α : Type} (f : α → ℚ) (l : List α) (a : ℚ) :
    l.foldl (fun acc x => acc + f x) a = a + (l.map f).sum := by
  induction l generalizing a with
  | nil => simp
  | cons x xs ih => rw [List.foldl_cons, ih, List.map_cons, List.sum_cons]; ring

theorem foldl_add_if {α : Type} (P : α → Prop) [DecidablePred P] (c : ℚ) (l : List α)
    (a : ℚ) :
    l.foldl (fun acc x => if P x then acc + c else acc) a =
      a + c * (((l.filter (fun x => decide (P x))).length : Nat) : ℚ) := by
  induction l generalizing a with
  | nil => simp
  | cons x xs ih =>
    rw [List.foldl_cons]
    by_cases hx : P x
    · rw [if_pos hx, ih, List.filter_cons_of_pos (by simpa using hx), List.length_cons]
      push_cast
      ring
    · rw [if_neg hx, ih, List.filter_cons_of_neg (by simpa using hx)]

/-! ### The variance helper (claim C8) -/

theorem variance_replicate (n : Nat) (a : ℚ) : variance (List.replicate n a) = 0 := by
  rcases Nat.lt_or_ge n 2 with h | h
  · simp [variance, h]
  · have hmean : sumQ (List.replicate n a) / ((List.replicate n a).length : ℚ) = a := by
      have hn : (n : ℚ) ≠ 0 := Nat.cast_ne_zero.2 (by omega)
      rw [sumQ_eq_sum, List.sum_replicate, nsmul_eq_mul, List.length_replicate]
      field_simp
    unfold variance
    rw [if_neg (by simp; omega)]
    rw [List.map_replicate]
    rw [hmean]
    rw [sub_self]
    simp [sumQ_eq_sum, List.sum_replicate]

theorem variance_perm (l l' : List ℚ) (h : l.Perm l') : variance l = variance l' := by
  have hlen := h.length_eq
  have hsum : sumQ l = sumQ l' := by rw [sumQ_eq_sum, sumQ_eq_sum, h.sum_eq]
  unfold variance
  rw [hlen, hsum]
  by_cases h2 : l'.length < 2
  · simp [h2]
  · rw [if_neg h2, if_neg h2]
    congr 1
    simp only [sumQ_eq_sum]
    exact (h.map (fun v => (v - l'.sum / (l'.length : ℚ)) ^ 2)).sum_eq

/-- Claim C8: the `variance` helper computes population variance
(divide by N, witnessed by `variance [a,b] = (a-b)^2/4`, which would be
`(a-b)^2/2` with an N−1 divisor); it returns 0 on empty and
single-element collections and on any constant collection, and its
value is invariant under reordering of the input. -/
theorem claim_C8_variance_props :
    variance [] = 0 ∧ (∀ a : ℚ, variance [a] = 0) ∧
      (∀ (n : Nat) (a : ℚ), variance (List.replicate n a) = 0) ∧
      (∀ a b : ℚ, variance [a, b] = (a - b) ^ 2 / 4) ∧
      (∀ l l' : List ℚ, l.Perm l' → variance l = variance l') := by
  refine ⟨by norm_num [variance], fun a => by norm_num [variance], variance_replicate,
    fun a b => ?_, variance_perm⟩
  norm_num [variance, sumQ]
  ring

/-- Witness for C8 at concrete inputs: the permutation hypothesis is
discharged on `[1, 2] ~ [2, 1]`. -/
theorem claim_C8_variance_props_witness :
    variance [(1 : ℚ), 2] = variance [2, 1] :=
  claim_C8_variance_props.2.2.2.2 [1, 2] [2, 1] (List.Perm.swap 2 1 [])

/-! ### Decomposition of `evaluate` (claim C4) -/

theorem sum_map_cast {α : Type} (g : α → Nat) (l : List α) :
    (l.map (fun x => ((g x : Nat) : ℚ))).sum = (((l.map g).sum : Nat) : ℚ) := by
  induction l with
  | nil => simp
  | cons x xs ih => simp [List.sum_cons, ih]

theorem sum_map_mul_left' {α : Type} (c : ℚ) (f : α → ℚ) (l : List α) :
    (l.map (fun x => c * f x)).sum = c * (l.map f).sum := by
  induction l with
  | nil => simp
  | cons x xs ih => simp [List.sum_cons, ih]; ring

theorem teamPenalty_eq (opt : Opt) (team : List Nat) :
    teamPenalty opt team =
      10000 * (((requiredPositions.filter
          (fun pos => decide (getPositionCount opt team pos < 1))).length : Nat) : ℚ) +
        5000 * (((3 - getPositionCount opt team "OF" : Nat)) : ℚ) +
        (if team.length < 9 then 2000 * ((9 : ℚ) - (team.length : ℚ)) else 0) := by
  unfold teamPenalty
  rw [foldl_add_if (fun pos => getPositionCount opt team pos < 1) 10000]
  have hof : (if getPositionCount opt team "OF" < 3 then
        (5000 : ℚ) * ((3 : ℚ) - (getPositionCount opt team "OF" : ℚ)) else 0) =
      5000 * (((3 - getPositionCount opt team "OF" : Nat)) : ℚ) := by
    by_cases h : getPositionCount opt team "OF" < 3
    · rw [if_pos h, Nat.cast_sub (by omega)]
      norm_num
    · rw [if_neg h]
      have h0 : 3 - getPositionCount opt team "OF" = 0 := by omega
      rw [h0]
      simp
  rw [hof]
  ring

/-- Claim C4: `evaluate` includes, per team, exactly 10000 for each of
the 7 mandatory roles with count below 1, plus 5000 per unit by which
the team's outfield-capable count falls short of 3, on top of all the
remaining fitness terms. -/
theorem claim_C4_role_penalties (opt : Opt) (ind : List Nat) :
    evaluate opt ind =
      10000 * (missingRoleTotal opt ind : ℚ) + 5000 * (ofShortTotal opt ind : ℚ) +
        evaluateRest opt ind := by
  unfold evaluate evaluateRest missingRoleTotal ofShortTotal
  dsimp only
  rw [foldl_add_map (teamPenalty opt)]
  rw [List.map_congr_left (fun t _ => teamPenalty_eq opt t)]
  rw [List.sum_map_add, List.sum_map_add, sum_map_mul_left', sum_map_mul_left',
    sum_map_cast, sum_map_cast]
  ring

/-! ### `decodeIndividual` as a partition (claim C6) -/

theorem length_pushIdx (teams : List (List Nat)) (c i : Nat) :
    (pushIdx teams c i).length = teams.length := by
  simp [pushIdx]

theorem length_decodeGo (ind : List Nat) :
    ∀ (i0 : Nat) (teams : List (List Nat)), (decodeGo ind i0 teams).length = teams.length := by
  induction ind with
  | nil => intro i0 teams; rfl
  | cons c rest ih => intro i0 teams; rw [decodeGo, ih, length_pushIdx]

theorem length_decodeIndividual (opt : Opt) (ind : List Nat) :
    (decodeIndividual opt ind).length = opt.numTeams := by
  rw [decodeIndividual, length_decodeGo, List.length_replicate]

theorem pushIdx_getD_ne (teams : List (List Nat)) (c i u : Nat) (h : c ≠ u) :
    (pushIdx teams c i).getD u [] = teams.getD u [] := by
  rw [List.getD_eq_getElem?_getD, List.getD_eq_getElem?_getD, pushIdx,
    List.getElem?_set_ne h]

theorem pushIdx_getD_self (teams : List (List Nat)) (c i : Nat) (h : c < teams.length) :
    (pushIdx teams c i).getD c [] = teams.getD c [] ++ [i] := by
  rw [List.getD_eq_getElem?_getD, List.getD_eq_getElem?_getD, pushIdx,
    List.getElem?_set_self h, List.getElem?_eq_getElem h, List.getD_eq_getElem teams [] h]
  rfl

theorem bucket_cons (t i0 c : Nat) (rest : List Nat) :
    bucket t i0 (c :: rest) =
      (if c = t then [i0] else []) ++ bucket t (i0 + 1) rest := by
  by_cases h : c = t
  · simp [bucket, withIdx, h]
  · simp [bucket, withIdx, h]

theorem decodeGo_getD (ind : List Nat) :
    ∀ (i0 : Nat) (teams : List (List Nat)) (t : Nat), t < teams.length →
      (decodeGo ind i0 teams).getD t [] = teams.getD t [] ++ bucket t i0 ind := by
  induction ind with
  | nil =>
    intro i0 teams t _
    simp [decodeGo, bucket, withIdx]
  | cons c rest ih =>
    intro i0 teams t ht
    rw [decodeGo, ih (i0 + 1) (pushIdx teams c i0) t (by rw [length_pushIdx]; exact ht),
      bucket_cons]
    by_cases h : c = t
    · subst h
      rw [pushIdx_getD_self teams c i0 ht, if_pos rfl, List.append_assoc]
    · rw [pushIdx_getD_ne teams c i0 t h, if_neg h, List.nil_append]

theorem decode_getD (opt : Opt) (ind : List Nat) (t : Nat) (ht : t < opt.numTeams) :
    (decodeIndividual opt ind).getD t [] = bucket t 0 ind := by
  rw [decodeIndividual, decodeGo_getD ind 0 _ t (by simpa using ht)]
  rw [List.getD_eq_getElem?_getD, List.getElem?_replicate, if_pos ht]
  rfl

theorem mem_withIdx (v j : Nat) (l : List Nat) :
    ∀ i0 : Nat, (j, v) ∈ withIdx i0 l ↔ ∃ k, l[k]? = some v ∧ j = i0 + k := by
  induction l with
  | nil => intro i0; simp [withIdx]
  | cons c rest ih =>
    intro i0
    rw [withIdx]
    constructor
    · intro h
      rcases List.mem_cons.1 h with h | h
      · have h1 : j = i0 := congrArg Prod.fst h
        have h2 : v = c := congrArg Prod.snd h
        exact ⟨0, by simp [h2], by omega⟩
      · rcases (ih (i0 + 1)).1 h with ⟨k, hk, hj⟩
        exact ⟨k + 1, by simpa using hk, by omega⟩
    · rintro ⟨k, hk, hj⟩
      cases k with
      | zero =>
        simp only [List.getElem?_cons_zero, Option.some.injEq] at hk
        exact List.mem_cons.2 (Or.inl (by simp [hk, hj]))
      | succ k =>
        refine List.mem_cons.2 (Or.inr ((ih (i0 + 1)).2 ⟨k, by simpa using hk, by omega⟩))

theorem mem_bucket_zero (t i : Nat) (ind : List Nat) :
    i ∈ bucket t 0 ind ↔ ind[i]? = some t := by
  constructor
  · intro h
    rcases List.mem_map.1 h with ⟨pr, hpr, hfst⟩
    rcases List.mem_filter.1 hpr with ⟨hmem, hbeq⟩
    have ht : pr.2 = t := by simpa using hbeq
    rcases (mem_withIdx pr.2 pr.1 ind 0).1 (by simpa using hmem) with ⟨k, hk, hj⟩
    have : pr.1 = k := by omega
    subst hfst
    rw [this, ← ht]
    exact hk
  · intro h
    refine List.mem_map.2 ⟨(i, t), List.mem_filter.2 ⟨?_, by simp⟩, rfl⟩
    exact (mem_withIdx t i ind 0).2 ⟨i, h, by omega⟩

/-- Claim C6: `decodeIndividual` of a well-formed individual is a
partition: the result has `numTeams` teams, every player index below
the individual's length lies on exactly one of those teams, and the
union of team memberships is exactly the full player-index set.
(Purity and determinism hold by construction: the embedding is a
function of the individual alone.) -/
theorem claim_C6_decode_partition (opt : Opt) (ind : List Nat)
    (hv : ∀ t ∈ ind, t < opt.numTeams) :
    (decodeIndividual opt ind).length = opt.numTeams ∧
      (∀ i, i < ind.length →
        ∃! t, t < opt.numTeams ∧ i ∈ (decodeIndividual opt ind).getD t []) ∧
      (∀ i, (∃ team ∈ decodeIndividual opt ind, i ∈ team) ↔ i < ind.length) := by
  refine ⟨length_decodeIndividual opt ind, ?_, ?_⟩
  · intro i hi
    have hcell : ind[i]? = some ind[i] := List.getElem?_eq_getElem hi
    have htlt : ind[i] < opt.numTeams := hv _ (List.getElem_mem hi)
    refine ⟨ind[i], ⟨htlt, ?_⟩, ?_⟩
    · rw [decode_getD opt ind _ htlt]
      exact (mem_bucket_zero _ i ind).2 hcell
    · rintro t ⟨htl, hmem⟩
      rw [decode_getD opt ind t htl] at hmem
      have := (mem_bucket_zero t i ind).1 hmem
      rw [hcell] at this
      exact (Option.some_inj.1 this).symm
  · intro i
    constructor
    · rintro ⟨team, hteam, hi⟩
      rcases List.mem_iff_getElem.1 hteam with ⟨t, htl, hteq⟩
      have htn : t < opt.numTeams := by
        rw [← length_decodeIndividual opt ind]; exact htl
      have : team = (decodeIndividual opt ind).getD t [] := by
        rw [List.getD_eq_getElem _ _ htl, hteq]
      rw [this, decode_getD opt ind t htn] at hi
      have := (mem_bucket_zero t i ind).1 hi
      by_contra hlen
      rw [List.getElem?_eq_none (by omega)] at this
      exact Option.noConfusion this
    · intro hi
      have hcell : ind[i]? = some ind[i] := List.getElem?_eq_getElem hi
      have htlt : ind[i] < opt.numTeams := hv _ (List.getElem_mem hi)
      have hlen : ind[i] < (decodeIndividual opt ind).length := by
        rw [length_decodeIndividual opt ind]; exact htlt
      refine ⟨(decodeIndividual opt ind).getD (ind[i]) [], ?_, ?_⟩
      · rw [List.getD_eq_getElem _ _ hlen]
        exact List.getElem_mem hlen
      · rw [decode_getD opt ind _ htlt]
        exact (mem_bucket_zero _ i ind).2 hcell

/-- Witness for C6: the partition properties evaluated on the concrete
individual `[0, 1]` of the two-player instance. -/
theorem claim_C6_decode_partition_witness :
    (decodeIndividual inst2 [0, 1]).length = inst2.numTeams ∧
      (∀ i, i < ([0, 1] : List Nat).length →
        ∃! t, t < inst2.numTeams ∧ i ∈ (decodeIndividual inst2 [0, 1]).getD t []) ∧
      (∀ i, (∃ team ∈ decodeIndividual inst2 [0, 1], i ∈ team) ↔
        i < ([0, 1] : List Nat).length) :=
  claim_C6_decode_partition inst2 [0, 1] (by decide)

/-! ### Termination of the repair loop (claim C5) -/

theorem repairGo_passes_le (opt : Opt) (tape : Nat → ℚ) :
    ∀ (fuel : Nat) (ind : List Nat) (p : Nat),
      (repairGo opt tape fuel ind p).passes ≤ fuel := by
  intro fuel
  induction fuel with
  | zero => intro ind p; simp [repairGo]
  | succ n ih =>
    intro ind p
    rw [repairGo]
    dsimp only
    split
    · exact Nat.succ_le_succ (ih _ _)
    · split
      · exact Nat.one_le_iff_ne_zero.2 (Nat.succ_ne_zero n)
      · split
        · exact Nat.succ_le_succ (ih _ _)
        · exact Nat.one_le_iff_ne_zero.2 (Nat.succ_ne_zero n)

theorem repairGo_success_feasible (opt : Opt) (tape : Nat → ℚ) :
    ∀ (fuel : Nat) (ind : List Nat) (p : Nat),
      (repairGo opt tape fuel ind p).reason = StopReason.success →
        checkPositionsCovered opt
            (decodeIndividual opt (repairGo opt tape fuel ind p).ind) = true ∧
          maxNat ((decodeIndividual opt (repairGo opt tape fuel ind p).ind).map List.length) -
            minNat ((decodeIndividual opt (repairGo opt tape fuel ind p).ind).map
              List.length) ≤ 1 := by
  intro fuel
  induction fuel with
  | zero => intro ind p h; exact absurd h (by simp [repairGo])
  | succ n ih =>
    intro ind p
    rw [repairGo]
    dsimp only
    split
    · exact fun h => ih _ _ h
    · rename_i hbal
      split
      · rename_i hcov
        intro _
        refine ⟨hcov, ?_⟩
        dsimp only
        omega
      · split
        · exact fun h => ih _ _ h
        · intro h
          exact absurd h (by simp)

/-- Claim C5: `repairIndividual` always terminates within its 100-pass
budget; every run of the pass loop executes at most 100 passes, and a
run that stops with success leaves an individual whose decoded teams
are fully role-covered with sizes within one of each other.  A run
whose `repairPositions` attempt finds no legal move stops on that pass
(reason `noMove`), possibly infeasible. -/
theorem claim_C5_repair_budget (opt : Opt) (tape : Nat → ℚ) (ind : List Nat) (p : Nat) :
    (repairGo opt tape 100 ind p).passes ≤ 100 ∧
      repairIndividual opt tape ind p =
        ((repairGo opt tape 100 ind p).ind, (repairGo opt tape 100 ind p).pos) ∧
      ((repairGo opt tape 100 ind p).reason = StopReason.success →
        checkPositionsCovered opt
            (decodeIndividual opt (repairGo opt tape 100 ind p).ind) = true ∧
          maxNat ((decodeIndividual opt (repairGo opt tape 100 ind p).ind).map List.length) -
            minNat ((decodeIndividual opt (repairGo opt tape 100 ind p).ind).map
              List.length) ≤ 1) :=
  ⟨repairGo_passes_le opt tape 100 ind p, rfl, repairGo_success_feasible opt tape 100 ind p⟩

/-- Witness for C5: on the empty instance the loop stops successfully
on its first pass, discharging the success hypothesis concretely. -/
theorem claim_C5_repair_budget_witness :
    (repairGo instE tape0 100 [] 0).passes ≤ 100 ∧
      checkPositionsCovered instE
        (decodeIndividual instE (repairGo instE tape0 100 [] 0).ind) = true :=
  ⟨(claim_C5_repair_budget instE tape0 [] 0).1,
    ((claim_C5_repair_budget instE tape0 [] 0).2.2 (by decide)).1⟩

/-! ### The donor tiers of role repair (claims C10 and C3) -/

theorem swap_false_eq (opt : Opt) (tape : Nat → ℚ) (ind : List Nat)
    (donor recip : Nat) (pos : String) (p : Nat)
    (h : swapDonors opt ind donor pos = []) :
    swapPositionPlayer opt tape ind donor recip pos p = (ind, false, p) := by
  simp [swapPositionPlayer, h]

theorem swap_true_eq (opt : Opt) (tape : Nat → ℚ) (ind : List Nat)
    (donor recip : Nat) (pos : String) (p : Nat)
    (h : swapDonors opt ind donor pos ≠ []) :
    swapPositionPlayer opt tape ind donor recip pos p =
      (ind.set ((swapDonors opt ind donor pos).getD
          (randFloor tape p (swapDonors opt ind donor pos).length).1 0) recip, true,
        (randFloor tape p (swapDonors opt ind donor pos).length).2) := by
  simp [swapPositionPlayer, List.length_pos.2 h]

theorem tierLoop_false_id (opt : Opt) (tape : Nat → ℚ) (needy : Nat) (pos : String)
    (th : Nat) :
    ∀ (es : List (Nat × List Nat)) (ind : List Nat) (p : Nat),
      (tierLoop opt tape needy pos th es ind p).2.1 = false →
        tierLoop opt tape needy pos th es ind p = (ind, false, p) := by
  intro es
  induction es with
  | nil => intro ind p _; rfl
  | cons hd rest ih =>
    intro ind p hf
    obtain ⟨tid0, team0⟩ := hd
    by_cases h1 : tid0 = needy
    · rw [tierLoop, if_pos h1] at hf ⊢
      exact ih ind p hf
    · by_cases h2 : th < getPositionCount opt team0 pos
      · by_cases h3 : swapDonors opt ind tid0 pos = []
        · rw [tierLoop, if_neg h1, if_pos h2,
            swap_false_eq opt tape ind tid0 needy pos p h3] at hf ⊢
          exact ih ind p hf
        · rw [tierLoop, if_neg h1, if_pos h2,
            swap_true_eq opt tape ind tid0 needy pos p h3] at hf
          simp at hf
      · rw [tierLoop, if_neg h1, if_neg h2] at hf ⊢
        exact ih ind p hf

theorem tierLoop_true_iff (opt : Opt) (tape : Nat → ℚ) (needy : Nat) (pos : String)
    (th : Nat) :
    ∀ (es : List (Nat × List Nat)) (ind : List Nat) (p : Nat),
      (tierLoop opt tape needy pos th es ind p).2.1 = true ↔
        ∃ tid team, (tid, team) ∈ es ∧ tid ≠ needy ∧
          th < getPositionCount opt team pos ∧ swapDonors opt ind tid pos ≠ [] := by
  intro es
  induction es with
  | nil => intro ind p; simp [tierLoop]
  | cons hd rest ih =>
    intro ind p
    obtain ⟨tid0, team0⟩ := hd
    by_cases h1 : tid0 = needy
    · rw [tierLoop, if_pos h1, ih]
      subst h1
      constructor
      · rintro ⟨tid, team, hmem, hne, hth, hdon⟩
        exact ⟨tid, team, List.mem_cons_of_mem _ hmem, hne, hth, hdon⟩
      · rintro ⟨tid, team, hmem, hne, hth, hdon⟩
        rcases List.mem_cons.1 hmem with heq | hmem'
        · exact absurd (congrArg Prod.fst heq) hne
        · exact ⟨tid, team, hmem', hne, hth, hdon⟩
    · by_cases h2 : th < getPositionCount opt team0 pos
      · by_cases h3 : swapDonors opt ind tid0 pos = []
        · rw [tierLoop, if_neg h1, if_pos h2,
            swap_false_eq opt tape ind tid0 needy pos p h3]
          dsimp only
          rw [ih]
          constructor
          · rintro ⟨tid, team, hmem, hne, hth, hdon⟩
            exact ⟨tid, team, List.mem_cons_of_mem _ hmem, hne, hth, hdon⟩
          · rintro ⟨tid, team, hmem, hne, hth, hdon⟩
            rcases List.mem_cons.1 hmem with heq | hmem'
            · have ht : tid = tid0 := congrArg Prod.fst heq
              rw [ht] at hdon
              exact absurd h3 hdon
            · exact ⟨tid, team, hmem', hne, hth, hdon⟩
        · rw [tierLoop, if_neg h1, if_pos h2,
            swap_true_eq opt tape ind tid0 needy pos p h3]
          dsimp only
          constructor
          · intro _
            exact ⟨tid0, team0, List.mem_cons_self _ _, h1, h2, h3⟩
          · intro _
            rfl
      · rw [tierLoop, if_neg h1, if_neg h2, ih]
        constructor
        · rintro ⟨tid, team, hmem, hne, hth, hdon⟩
          exact ⟨tid, team, List.mem_cons_of_mem _ hmem, hne, hth, hdon⟩
        · rintro ⟨tid, team, hmem, hne, hth, hdon⟩
          rcases List.mem_cons.1 hmem with heq | hmem'
          · have hm : team = team0 := congrArg Prod.snd heq
            rw [hm] at hth
            exact absurd hth h2
          · exact ⟨tid, team, hmem', hne, hth, hdon⟩

theorem swapDonors_nil_of_grouped (opt : Opt) (ind : List Nat) (pos : String)
    (h : ∀ i, i < ind.length → matchesPos (getPlayer opt i) pos = true →
      isCoAssigned opt i = true) :
    ∀ d, swapDonors opt ind d pos = [] := by
  intro d
  rw [swapDonors, List.filter_eq_nil_iff]
  intro i hi hpred
  have hi' : i < ind.length := List.mem_range.1 hi
  simp only [Bool.and_eq_true, decide_eq_true_eq, Bool.not_eq_true'] at hpred
  exact absurd (h i hi' hpred.1.2) (by simp [hpred.2])

theorem tierLoop_id_of_no_donors (opt : Opt) (tape : Nat → ℚ) (needy : Nat)
    (pos : String) (th : Nat) (ind : List Nat)
    (hall : ∀ d, swapDonors opt ind d pos = []) :
    ∀ (es : List (Nat × List Nat)) (p : Nat),
      tierLoop opt tape needy pos th es ind p = (ind, false, p) := by
  intro es
  induction es with
  | nil => intro p; rfl
  | cons hd rest ih =>
    intro p
    obtain ⟨tid0, team0⟩ := hd
    by_cases h1 : tid0 = needy
    · rw [tierLoop, if_pos h1]
      exact ih p
    · by_cases h2 : th < getPositionCount opt team0 pos
      · rw [tierLoop, if_neg h1, if_pos h2,
          swap_false_eq opt tape ind tid0 needy pos p (hall tid0)]
        exact ih p
      · rw [tierLoop, if_neg h1, if_neg h2]
        exact ih p

/-- Claim C10: `swapPositionPlayer` only ever relocates ungrouped
players; when every player matching the needed position is a member of
some co-assign group, it reports failure and leaves the individual (and
the random stream) untouched, and the whole `fixMissingPosition` donor
search therefore fails for the needy team even though a qualifying
(grouped) player exists elsewhere. -/
theorem claim_C10_swap_requires_ungrouped (opt : Opt) (tape : Nat → ℚ)
    (ind : List Nat) (teams : List (List Nat)) (donor recip needy : Nat)
    (pos : String) (p : Nat)
    (h : ∀ i, i < ind.length → matchesPos (getPlayer opt i) pos = true →
      isCoAssigned opt i = true) :
    swapPositionPlayer opt tape ind donor recip pos p = (ind, false, p) ∧
      fixMissingPosition opt tape ind teams needy pos p = (ind, false, p) := by
  have hall := swapDonors_nil_of_grouped opt ind pos h
  refine ⟨swap_false_eq opt tape ind donor recip pos p (hall donor), ?_⟩
  rw [fixMissingPosition,
    tierLoop_id_of_no_donors opt tape needy pos _ ind hall (withIdx 0 teams) p]
  dsimp only
  exact tierLoop_id_of_no_donors opt tape needy pos _ ind hall (withIdx 0 teams) p

/-- Witness for C10: the single grouped center fielder on team 1 is the
only outfield-capable player, so role repair for team 0 fails. -/
theorem claim_C10_swap_requires_ungrouped_witness :
    swapPositionPlayer instG tape0 [1] 1 0 "OF" 0 = ([1], false, 0) ∧
      fixMissingPosition instG tape0 [1] (decodeIndividual instG [1]) 0 "OF" 0 =
        ([1], false, 0) :=
  claim_C10_swap_requires_ungrouped instG tape0 [1] (decodeIndividual instG [1])
    1 0 0 "OF" 0 (by decide)

/-- Counterexample for C3: team 1 holds one ungrouped outfield-capable
player (count 1 ≥ 1), yet the fallback tier refuses it — for outfield
capability the second tier requires count > 2, not count ≥ 1 as the
claim states — so `fixMissingPosition` reports failure. -/
theorem claim_C3_counterexample :
    (fixMissingPosition inst3 tape0 [1] (decodeIndividual inst3 [1]) 0 "OF" 0).2.1 =
        false ∧
      1 ≤ getPositionCount inst3 ((decodeIndividual inst3 [1]).getD 1 []) "OF" ∧
      swapDonors inst3 [1] 1 "OF" ≠ [] := by
  decide

/-- Claim C3 (amended): the donor search succeeds exactly when some
other team exceeds the *fallback* threshold — more than 0 players of an
ordinary role, or more than 2 outfield-capable players — and carries an
ungrouped qualifying player; the surplus tier (count > 1, resp. > 3) is
merely tried first, and with no such donor the search reports failure. -/
theorem claim_C3_amended_donor_tiers (opt : Opt) (tape : Nat → ℚ) (ind : List Nat)
    (teams : List (List Nat)) (needy : Nat) (pos : String) (p : Nat) :
    (fixMissingPosition opt tape ind teams needy pos p).2.1 = true ↔
      ∃ tid team, (tid, team) ∈ withIdx 0 teams ∧ tid ≠ needy ∧
        (if pos == "OF" then 2 else 0) < getPositionCount opt team pos ∧
        swapDonors opt ind tid pos ≠ [] := by
  rcases htier : tierLoop opt tape needy pos (if pos == "OF" then 3 else 1)
      (withIdx 0 teams) ind p with ⟨i1, b1, p1⟩
  cases b1 with
  | false =>
    have hid := tierLoop_false_id opt tape needy pos (if pos == "OF" then 3 else 1)
      (withIdx 0 teams) ind p (by rw [htier])
    rw [fixMissingPosition, hid]
    dsimp only
    rw [tierLoop_true_iff]
  | true =>
    have h1 : (tierLoop opt tape needy pos (if pos == "OF" then 3 else 1)
        (withIdx 0 teams) ind p).2.1 = true := by rw [htier]
    rcases (tierLoop_true_iff opt tape needy pos _ (withIdx 0 teams) ind p).1 h1 with
      ⟨tid, team, hmem, hne, hth, hdon⟩
    have hth2 : (if pos == "OF" then 2 else 0) < getPositionCount opt team pos := by
      by_cases hb : (pos == "OF") = true
      · simp only [hb, if_true] at hth ⊢; omega
      · simp [hb] at hth ⊢
        omega
    rw [fixMissingPosition, htier]
    dsimp only
    exact ⟨fun _ => ⟨tid, team, hmem, hne, hth2, hdon⟩, fun _ => rfl⟩

/-! ### Structure of the co-assign groups -/

theorem addToGroups_sound (P : Nat → Nat → Prop) :
    ∀ (acc : List (Nat × List Nat)) (g j : Nat),
      (∀ gl ∈ acc, ∀ i ∈ gl.2, P gl.1 i) → P g j →
      ∀ gl ∈ addToGroups acc g j, ∀ i ∈ gl.2, P gl.1 i := by
  intro acc
  induction acc with
  | nil =>
    intro g j _ hP gl hgl i hi
    rw [addToGroups] at hgl
    rcases List.mem_singleton.1 hgl with rfl
    rcases List.mem_singleton.1 hi with rfl
    exact hP
  | cons hd rest ih =>
    obtain ⟨k, l⟩ := hd
    intro g j hacc hP gl hgl i hi
    rw [addToGroups] at hgl
    by_cases h1 : g = k
    · rw [if_pos h1] at hgl
      rcases List.mem_cons.1 hgl with rfl | hgl'
      · rcases List.mem_append.1 hi with hil | hij
        · exact hacc (k, l) (List.mem_cons_self _ _) i hil
        · rcases List.mem_singleton.1 hij with rfl
          rw [← h1]
          exact hP
      · exact hacc gl (List.mem_cons_of_mem _ hgl') i hi
    · rw [if_neg h1] at hgl
      by_cases h2 : g < k
      · rw [if_pos h2] at hgl
        rcases List.mem_cons.1 hgl with rfl | hgl'
        · rcases List.mem_singleton.1 hi with rfl
          exact hP
        · exact hacc gl hgl' i hi
      · rw [if_neg h2] at hgl
        rcases List.mem_cons.1 hgl with rfl | hgl'
        · exact hacc (k, l) (List.mem_cons_self _ _) i hi
        · exact ih g j (fun gl' hgl'' i' hi' =>
            hacc gl' (List.mem_cons_of_mem _ hgl'') i' hi') hP gl hgl' i hi

theorem buildGo_sound (players : List Player) :
    ∀ (ps : List Player) (n : Nat) (acc : List (Nat × List Nat)),
      (∀ k, ps[k]? = players[n + k]?) →
      (∀ gl ∈ acc, ∀ i ∈ gl.2,
        ∃ pl, players[i]? = some pl ∧ pl.coAssignGroup = some gl.1) →
      ∀ gl ∈ buildGo ps n acc, ∀ i ∈ gl.2,
        ∃ pl, players[i]? = some pl ∧ pl.coAssignGroup = some gl.1 := by
  intro ps
  induction ps with
  | nil => intro n acc _ hacc; simpa [buildGo] using hacc
  | cons q ps' ih =>
    intro n acc hk hacc
    have hk' : ∀ k, ps'[k]? = players[(n + 1) + k]? := by
      intro k
      have := hk (k + 1)
      simpa [Nat.add_assoc, Nat.add_comm 1 k] using this
    have hq : players[n]? = some q := by
      have := hk 0
      simpa using this.symm
    rw [buildGo]
    cases hg : q.coAssignGroup with
    | none => exact ih (n + 1) acc hk' hacc
    | some g =>
      refine ih (n + 1) _ hk' ?_
      exact addToGroups_sound
        (fun g' i => ∃ pl, players[i]? = some pl ∧ pl.coAssignGroup = some g')
        acc g n hacc ⟨q, hq, hg⟩

theorem groups_sound (opt : Opt) :
    ∀ gl ∈ coAssignGroups opt, ∀ i ∈ gl.2,
      ∃ pl, opt.players[i]? = some pl ∧ pl.coAssignGroup = some gl.1 := by
  refine buildGo_sound opt.players opt.players 0 [] (fun k => by simp) (by simp)

theorem groups_mem_lt (opt : Opt) {gl : Nat × List Nat} {i : Nat}
    (hgl : gl ∈ coAssignGroups opt) (hi : i ∈ gl.2) : i < opt.players.length := by
  rcases groups_sound opt gl hgl i hi with ⟨pl, hpl, _⟩
  rcases List.getElem?_eq_some.1 hpl with ⟨h, _⟩
  exact h

theorem addToGroups_head (acc : List (Nat × List Nat)) (g i : Nat) :
    ∀ y ∈ (addToGroups acc g i).head?, y.1 = g ∨ ∃ z ∈ acc.head?, y.1 = z.1 := by
  cases acc with
  | nil =>
    intro y hy
    simp only [addToGroups, List.head?_cons, Option.mem_def, Option.some.injEq] at hy
    exact Or.inl (by rw [← hy])
  | cons hd rest =>
    obtain ⟨k, l⟩ := hd
    intro y hy
    rw [addToGroups] at hy
    by_cases h1 : g = k
    · rw [if_pos h1] at hy
      simp only [List.head?_cons, Option.mem_def, Option.some.injEq] at hy
      exact Or.inr ⟨(k, l), by simp, by simp [← hy]⟩
    · rw [if_neg h1] at hy
      by_cases h2 : g < k
      · rw [if_pos h2] at hy
        simp only [List.head?_cons, Option.mem_def, Option.some.injEq] at hy
        exact Or.inl (by simp [← hy])
      · rw [if_neg h2] at hy
        simp only [List.head?_cons, Option.mem_def, Option.some.injEq] at hy
        exact Or.inr ⟨(k, l), by simp, by simp [← hy]⟩

theorem addToGroups_sorted :
    ∀ (acc : List (Nat × List Nat)) (g i : Nat),
      List.Chain' (fun a b => a.1 < b.1) acc →
      List.Chain' (fun a b => a.1 < b.1) (addToGroups acc g i) := by
  intro acc
  induction acc with
  | nil => intro g i _; simp [addToGroups]
  | cons hd rest ih =>
    obtain ⟨k, l⟩ := hd
    intro g i hch
    rw [addToGroups]
    rcases List.chain'_cons'.1 hch with ⟨hhead, hrest⟩
    by_cases h1 : g = k
    · rw [if_pos h1]
      exact List.chain'_cons'.2 ⟨hhead, hrest⟩
    · rw [if_neg h1]
      by_cases h2 : g < k
      · rw [if_pos h2]
        exact List.chain'_cons'.2 ⟨by intro y hy; simp at hy; simp [← hy, h2], hch⟩
      · rw [if_neg h2]
        refine List.chain'_cons'.2 ⟨?_, ih g i hrest⟩
        intro y hy
        rcases addToGroups_head rest g i y hy with hg | ⟨z, hz, hzz⟩
        · rw [hg]; omega
        · rw [hzz]; exact hhead z hz

theorem groups_sorted (opt : Opt) :
    List.Chain' (fun a b => a.1 < b.1) (coAssignGroups opt) := by
  have : ∀ (ps : List Player) (n : Nat) (acc : List (Nat × List Nat)),
      List.Chain' (fun a b => a.1 < b.1) acc →
      List.Chain' (fun a b => a.1 < b.1) (buildGo ps n acc) := by
    intro ps
    induction ps with
    | nil => intro n acc h; simpa [buildGo] using h
    | cons q ps' ih =>
      intro n acc h
      rw [buildGo]
      cases hg : q.coAssignGroup with
      | none => exact ih (n + 1) acc h
      | some g => exact ih (n + 1) _ (addToGroups_sorted acc g n h)
  exact this opt.players 0 [] (by simp)

theorem eq_of_pairwise_keys :
    ∀ (l : List (Nat × List Nat)), List.Pairwise (fun a b => a.1 < b.1) l →
      ∀ gl ∈ l, ∀ gl' ∈ l, gl.1 = gl'.1 → gl = gl' := by
  intro l hp
  induction hp with
  | nil => simp
  | cons hhd _ ih =>
    intro gl hgl gl' hgl' hk
    rcases List.mem_cons.1 hgl with rfl | hgl2
    · rcases List.mem_cons.1 hgl' with rfl | hgl2'
      · rfl
      · exact absurd hk (Nat.ne_of_lt (hhd gl' hgl2'))
    · rcases List.mem_cons.1 hgl' with rfl | hgl2'
      · exact absurd hk.symm (Nat.ne_of_lt (hhd gl hgl2))
      · exact ih gl hgl2 gl' hgl2' hk

theorem groups_key_inj (opt : Opt) {gl gl' : Nat × List Nat}
    (h : gl ∈ coAssignGroups opt) (h' : gl' ∈ coAssignGroups opt)
    (hk : gl.1 = gl'.1) : gl = gl' := by
  haveI : IsTrans (Nat × List Nat) (fun a b => a.1 < b.1) :=
    ⟨fun a b c h1 h2 => lt_trans h1 h2⟩
  exact eq_of_pairwise_keys (coAssignGroups opt)
    (List.chain'_iff_pairwise.1 (groups_sorted opt)) gl h gl' h' hk

theorem groups_disjoint (opt : Opt) {gl gl' : Nat × List Nat} {i : Nat}
    (h : gl ∈ coAssignGroups opt) (h' : gl' ∈ coAssignGroups opt)
    (hi : i ∈ gl.2) (hi' : i ∈ gl'.2) : gl = gl' := by
  rcases groups_sound opt gl h i hi with ⟨pl, hpl, hg⟩
  rcases groups_sound opt gl' h' i hi' with ⟨pl', hpl', hg'⟩
  rw [hpl] at hpl'
  apply groups_key_inj opt h h'
  have : pl = pl' := Option.some_inj.1 hpl'
  rw [this] at hg
  rw [hg] at hg'
  exact Option.some_inj.1 hg'

theorem mem_group_coAssigned (opt : Opt) {gl : Nat × List Nat} {i : Nat}
    (hgl : gl ∈ coAssignGroups opt) (hi : i ∈ gl.2) : isCoAssigned opt i = true := by
  rw [isCoAssigned, List.any_eq_true]
  exact ⟨gl, hgl, List.elem_iff.2 hi⟩

theorem not_coAssigned_not_mem (opt : Opt) {i : Nat}
    (h : isCoAssigned opt i = false) :
    ∀ gl ∈ coAssignGroups opt, i ∉ gl.2 := by
  intro gl hgl hi
  rw [mem_group_coAssigned opt hgl hi] at h
  exact Bool.noConfusion h

/-! ### `List.set`, `setAll`, and sampling bounds -/

theorem setAll_cons {α : Type} (l : List α) (j : Nat) (rest : List Nat) (a : α) :
    setAll l (j :: rest) a = setAll (l.set j a) rest a := rfl

theorem length_setAll {α : Type} (a : α) :
    ∀ (idxs : List Nat) (l : List α), (setAll l idxs a).length = l.length := by
  intro idxs
  induction idxs with
  | nil => intro l; rfl
  | cons j rest ih => intro l; rw [setAll_cons, ih, List.length_set]

theorem getElem?_setAll_not_mem {α : Type} (a : α) :
    ∀ (idxs : List Nat) (l : List α) (i : Nat),
      i ∉ idxs → (setAll l idxs a)[i]? = l[i]? := by
  intro idxs
  induction idxs with
  | nil => intro l i _; rfl
  | cons j rest ih =>
    intro l i h
    rw [setAll_cons, ih _ _ (fun hm => h (List.mem_cons_of_mem _ hm))]
    exact List.getElem?_set_ne (fun hj => h (by rw [← hj]; exact List.mem_cons_self _ _))

theorem getElem?_setAll_mem {α : Type} (a : α) :
    ∀ (idxs : List Nat) (l : List α) (i : Nat),
      i ∈ idxs → i < l.length → (setAll l idxs a)[i]? = some a := by
  intro idxs
  induction idxs with
  | nil => intro l i h _; exact absurd h (List.not_mem_nil i)
  | cons j rest ih =>
    intro l i hm hlt
    rw [setAll_cons]
    by_cases hr : i ∈ rest
    · exact ih _ _ hr (by rw [List.length_set]; exact hlt)
    · have hij : i = j := by
        rcases List.mem_cons.1 hm with h | h
        · exact h
        · exact absurd h hr
      subst hij
      rw [getElem?_setAll_not_mem a rest _ _ hr, List.getElem?_set_self hlt]

theorem getD_mem {α : Type} (l : List α) (k : Nat) (d : α) (h : k < l.length) :
    l.getD k d ∈ l := by
  rw [List.getD_eq_getElem _ _ h]
  exact List.getElem_mem h

theorem randFloor_lt (tape : Nat → ℚ) (hT : ValidTape tape) (p n : Nat) (hn : 0 < n) :
    (randFloor tape p n).1 < n := by
  rw [randFloor]
  dsimp only
  rcases hT p with ⟨h0, h1⟩
  have hq : tape p * (n : ℚ) < (n : ℚ) := by
    calc tape p * (n : ℚ) < 1 * (n : ℚ) :=
      mul_lt_mul_of_pos_right h1 (by exact_mod_cast hn)
    _ = (n : ℚ) := one_mul _
  have h0q : (0 : ℚ) ≤ tape p * (n : ℚ) := mul_nonneg h0 (by positivity)
  have hfl : ⌊tape p * (n : ℚ)⌋ < (n : ℤ) := Int.floor_lt.2 (by exact_mod_cast hq)
  have hfl0 : (0 : ℤ) ≤ ⌊tape p * (n : ℚ)⌋ := Int.floor_nonneg.2 h0q
  omega

/-! ### Preservation of the grouping invariant -/

theorem groupInv_set (opt : Opt) {ind : List Nat} {k a : Nat}
    (hk : isCoAssigned opt k = false) (hG : GroupInv opt ind) :
    GroupInv opt (ind.set k a) := by
  intro gl hgl i hi j hj
  have hik : k ≠ i := fun h => not_coAssigned_not_mem opt hk gl hgl (h ▸ hi)
  have hjk : k ≠ j := fun h => not_coAssigned_not_mem opt hk gl hgl (h ▸ hj)
  rw [List.getElem?_set_ne hik, List.getElem?_set_ne hjk]
  exact hG gl hgl i hi j hj

theorem groupInv_setAll_entry (opt : Opt) {ind : List Nat} {gl0 : Nat × List Nat}
    {a : Nat} (hgl0 : gl0 ∈ coAssignGroups opt) (hG : GroupInv opt ind) :
    GroupInv opt (setAll ind gl0.2 a) := by
  intro gl hgl i hi j hj
  by_cases hsame : gl = gl0
  · subst hsame
    have horig := hG gl hgl i hi j hj
    by_cases hil : i < ind.length
    · have hjl : j < ind.length := by
        by_contra hjl
        rw [List.getElem?_eq_getElem hil, List.getElem?_eq_none (by omega)] at horig
        exact Option.noConfusion horig
      rw [getElem?_setAll_mem a gl.2 ind i hi hil, getElem?_setAll_mem a gl.2 ind j hj hjl]
    · have hjl : ¬ j < ind.length := by
        intro hjl
        rw [List.getElem?_eq_getElem hjl, List.getElem?_eq_none (by omega)] at horig
        exact Option.noConfusion horig
      have h1 : (setAll ind gl.2 a)[i]? = none :=
        List.getElem?_eq_none (by rw [length_setAll]; omega)
      have h2 : (setAll ind gl.2 a)[j]? = none :=
        List.getElem?_eq_none (by rw [length_setAll]; omega)
      rw [h1, h2]
  · have hni : i ∉ gl0.2 := fun hmem => hsame (groups_disjoint opt hgl hgl0 hi hmem)
    have hnj : j ∉ gl0.2 := fun hmem => hsame (groups_disjoint opt hgl hgl0 hj hmem)
    rw [getElem?_setAll_not_mem a gl0.2 ind i hni, getElem?_setAll_not_mem a gl0.2 ind j hnj]
    exact hG gl hgl i hi j hj

theorem movePlayer_groupInv (opt : Opt) (tape : Nat → ℚ) (hT : ValidTape tape)
    (ind : List Nat) (fromT toT p : Nat) (hG : GroupInv opt ind) :
    GroupInv opt (movePlayer opt tape ind fromT toT p).1 := by
  by_cases h1 : 0 < (moveNonCo opt ind fromT).length
  · rw [movePlayer, if_pos h1]
    dsimp only
    have hk := randFloor_lt tape hT p _ h1
    have hmem := getD_mem _ _ 0 hk
    have := (List.mem_filter.1 hmem).2
    exact groupInv_set opt (by simpa using this) hG
  · by_cases h2 : 0 < (moveFromIdx ind fromT).length
    · rcases hfind : (coAssignGroups opt).find?
          (fun gl => gl.2.contains
            ((moveFromIdx ind fromT).getD (randFloor tape p
              (moveFromIdx ind fromT).length).1 0)) with _ | gl
      · rw [movePlayer, if_neg h1, if_pos h2]
        dsimp only
        rw [hfind]
        dsimp only
        apply groupInv_set opt ?_ hG
        rw [isCoAssigned]
        rw [List.any_eq_false]
        intro gl' hgl'
        have := List.find?_eq_none.1 hfind gl' hgl'
        simpa using this
      · rw [movePlayer, if_neg h1, if_pos h2]
        dsimp only
        rw [hfind]
        dsimp only
        exact groupInv_setAll_entry opt (List.mem_of_find?_eq_some hfind) hG
    · rw [movePlayer, if_neg h1, if_neg h2]
      exact hG

theorem swap_groupInv (opt : Opt) (tape : Nat → ℚ) (hT : ValidTape tape)
    (ind : List Nat) (donor recip : Nat) (pos : String) (p : Nat)
    (hG : GroupInv opt ind) :
    GroupInv opt (swapPositionPlayer opt tape ind donor recip pos p).1 := by
  by_cases h1 : swapDonors opt ind donor pos = []
  · rw [swap_false_eq opt tape ind donor recip pos p h1]
    exact hG
  · rw [swap_true_eq opt tape ind donor recip pos p h1]
    dsimp only
    have hk := randFloor_lt tape hT p _ (List.length_pos.2 h1)
    have hmem := getD_mem _ _ 0 hk
    have := (List.mem_filter.1 hmem).2
    apply groupInv_set opt ?_ hG
    simp only [Bool.and_eq_true, Bool.not_eq_true'] at this
    exact this.2

/-! ### Generic preservation through the repair pipeline -/

theorem tierLoop_pres (opt : Opt) (tape : Nat → ℚ) (P : List Nat → Prop)
    (needy : Nat) (pos : String) (th : Nat)
    (hs : ∀ ind d p, P ind → P (swapPositionPlayer opt tape ind d needy pos p).1) :
    ∀ (es : List (Nat × List Nat)) (ind : List Nat) (p : Nat),
      P ind → P (tierLoop opt tape needy pos th es ind p).1 := by
  intro es
  induction es with
  | nil => intro ind p h; exact h
  | cons hd rest ih =>
    intro ind p h
    obtain ⟨tid0, team0⟩ := hd
    by_cases h1 : tid0 = needy
    · rw [tierLoop, if_pos h1]; exact ih ind p h
    · by_cases h2 : th < getPositionCount opt team0 pos
      · rcases hsw : swapPositionPlayer opt tape ind tid0 needy pos p with ⟨i', b, p'⟩
        have hPi' : P i' := by
          have := hs ind tid0 p h
          rw [hsw] at this
          exact this
        rw [tierLoop, if_neg h1, if_pos h2, hsw]
        cases b
        · dsimp only; exact ih i' p' hPi'
        · dsimp only; exact hPi'
      · rw [tierLoop, if_neg h1, if_neg h2]; exact ih ind p h

theorem fix_pres (opt : Opt) (tape : Nat → ℚ) (P : List Nat → Prop)
    (teams : List (List Nat)) (needy : Nat) (pos : String)
    (hs : ∀ ind d p, P ind → P (swapPositionPlayer opt tape ind d needy pos p).1) :
    ∀ (ind : List Nat) (p : Nat),
      P ind → P (fixMissingPosition opt tape ind teams needy pos p).1 := by
  intro ind p h
  rcases h1 : tierLoop opt tape needy pos (if pos == "OF" then 3 else 1)
      (withIdx 0 teams) ind p with ⟨i1, b1, p1⟩
  have hPi1 : P i1 := by
    have := tierLoop_pres opt tape P needy pos (if pos == "OF" then 3 else 1) hs
      (withIdx 0 teams) ind p h
    rw [h1] at this
    exact this
  rw [fixMissingPosition, h1]
  cases b1
  · dsimp only
    exact tierLoop_pres opt tape P needy pos (if pos == "OF" then 2 else 0) hs
      (withIdx 0 teams) i1 p1 hPi1
  · dsimp only
    exact hPi1

theorem posLoop_pres (opt : Opt) (tape : Nat → ℚ) (P : List Nat → Prop)
    (teamsList : List (List Nat)) (tid : Nat) (team : List Nat)
    (hs : ∀ ind d p ps, P ind → P (swapPositionPlayer opt tape ind d tid ps p).1) :
    ∀ (pss : List String) (ind : List Nat) (p : Nat),
      P ind → P (posLoop opt tape teamsList tid team pss ind p).1 := by
  intro pss
  induction pss with
  | nil => intro ind p h; exact h
  | cons pos rest ih =>
    intro ind p h
    by_cases h1 : getPositionCount opt team pos < 1
    · rcases hf : fixMissingPosition opt tape ind teamsList tid pos p with ⟨i', b, p'⟩
      have hPi' : P i' := by
        have := fix_pres opt tape P teamsList tid pos (fun i d q hq => hs i d q pos hq) ind p h
        rw [hf] at this
        exact this
      rw [posLoop, if_pos h1, hf]
      cases b
      · dsimp only; exact ih i' p' hPi'
      · dsimp only; exact hPi'
    · rw [posLoop, if_neg h1]; exact ih ind p h

theorem teamsLoop_pres (opt : Opt) (tape : Nat → ℚ) (P : List Nat → Prop)
    (teamsList : List (List Nat))
    (hs : ∀ ind d r ps p, r < teamsList.length →
      P ind → P (swapPositionPlayer opt tape ind d r ps p).1) :
    ∀ (es : List (Nat × List Nat)), (∀ e ∈ es, e.1 < teamsList.length) →
      ∀ (ind : List Nat) (p : Nat),
        P ind → P (teamsLoop opt tape teamsList es ind p).1 := by
  intro es
  induction es with
  | nil => intro _ ind p h; exact h
  | cons hd rest ih =>
    intro hes ind p h
    obtain ⟨tid0, team0⟩ := hd
    have htid : tid0 < teamsList.length := hes (tid0, team0) (List.mem_cons_self _ _)
    have hs0 : ∀ ind d p ps, P ind → P (swapPositionPlayer opt tape ind d tid0 ps p).1 :=
      fun i d q ps hq => hs i d tid0 ps q htid hq
    rcases hp : posLoop opt tape teamsList tid0 team0 requiredPositions ind p with
      ⟨i1, b1, p1⟩
    have hPi1 : P i1 := by
      have := posLoop_pres opt tape P teamsList tid0 team0 hs0 requiredPositions ind p h
      rw [hp] at this
      exact this
    rw [teamsLoop, hp]
    cases b1
    · dsimp only
      by_cases h3 : getPositionCount opt team0 "OF" < 3
      · rw [if_pos h3]
        rcases hf : fixMissingPosition opt tape i1 teamsList tid0 "OF" p1 with ⟨i2, b2, p2⟩
        have hPi2 : P i2 := by
          have := fix_pres opt tape P teamsList tid0 "OF"
            (fun i d q hq => hs0 i d q "OF" hq) i1 p1 hPi1
          rw [hf] at this
          exact this
        cases b2
        · dsimp only
          exact ih (fun e he => hes e (List.mem_cons_of_mem _ he)) i2 p2 hPi2
        · dsimp only; exact hPi2
      · rw [if_neg h3]
        exact ih (fun e he => hes e (List.mem_cons_of_mem _ he)) i1 p1 hPi1
    · dsimp only; exact hPi1

theorem withIdx_mem_bound {α : Type} :
    ∀ (l : List α) (n tid : Nat) (tm : α),
      (tid, tm) ∈ withIdx n l → n ≤ tid ∧ tid < n + l.length := by
  intro l
  induction l with
  | nil => intro n tid tm h; exact absurd h (List.not_mem_nil _)
  | cons x xs ih =>
    intro n tid tm h
    rw [withIdx] at h
    rcases List.mem_cons.1 h with heq | hmem
    · have : tid = n := congrArg Prod.fst heq
      subst this
      simp
    · have := ih (n + 1) tid tm hmem
      constructor
      · omega
      · simpa [Nat.add_comm, Nat.add_assoc, Nat.add_left_comm] using this.2

theorem repairPositions_pres (opt : Opt) (tape : Nat → ℚ) (P : List Nat → Prop)
    (teamsList : List (List Nat))
    (hs : ∀ ind d r ps p, r < teamsList.length →
      P ind → P (swapPositionPlayer opt tape ind d r ps p).1) :
    ∀ (ind : List Nat) (p : Nat),
      P ind → P (repairPositions opt tape ind teamsList p).1 := by
  intro ind p h
  rw [repairPositions]
  refine teamsLoop_pres opt tape P teamsList hs (withIdx 0 teamsList) ?_ ind p h
  intro e he
  obtain ⟨tid, tm⟩ := e
  have := withIdx_mem_bound teamsList 0 tid tm he
  omega

theorem foldl_max_mem : ∀ (xs : List Nat) (x : Nat), xs.foldl Nat.max x ∈ x :: xs := by
  intro xs
  induction xs with
  | nil => intro x; exact List.mem_singleton.2 rfl
  | cons y ys ih =>
    intro x
    rw [List.foldl_cons]
    rcases List.mem_cons.1 (ih (Nat.max x y)) with h | h
    · have h2 : Nat.max x y = x ∨ Nat.max x y = y := by
        rcases Nat.le_total x y with hle | hle
        · exact Or.inr (Nat.max_eq_right hle)
        · exact Or.inl (Nat.max_eq_left hle)
      rw [h]
      rcases h2 with h2 | h2 <;> rw [h2]
      · exact List.mem_cons_self _ _
      · exact List.mem_cons_of_mem _ (List.mem_cons_self _ _)
    · exact List.mem_cons_of_mem _ (List.mem_cons_of_mem _ h)

theorem foldl_min_mem : ∀ (xs : List Nat) (x : Nat), xs.foldl Nat.min x ∈ x :: xs := by
  intro xs
  induction xs with
  | nil => intro x; exact List.mem_singleton.2 rfl
  | cons y ys ih =>
    intro x
    rw [List.foldl_cons]
    rcases List.mem_cons.1 (ih (Nat.min x y)) with h | h
    · have h2 : Nat.min x y = x ∨ Nat.min x y = y := by
        rcases Nat.le_total x y with hle | hle
        · exact Or.inl (Nat.min_eq_left hle)
        · exact Or.inr (Nat.min_eq_right hle)
      rw [h]
      rcases h2 with h2 | h2 <;> rw [h2]
      · exact List.mem_cons_self _ _
      · exact List.mem_cons_of_mem _ (List.mem_cons_self _ _)
    · exact List.mem_cons_of_mem _ (List.mem_cons_of_mem _ h)

theorem maxNat_mem {l : List Nat} (h : l ≠ []) : maxNat l ∈ l := by
  cases l with
  | nil => exact absurd rfl h
  | cons x xs => exact foldl_max_mem xs x

theorem minNat_mem {l : List Nat} (h : l ≠ []) : minNat l ∈ l := by
  cases l with
  | nil => exact absurd rfl h
  | cons x xs => exact foldl_min_mem xs x

theorem idx0_lt_of_mem {α : Type} [DecidableEq α] {a : α} :
    ∀ {l : List α}, a ∈ l → idx0 a l < l.length := by
  intro l
  induction l with
  | nil => intro h; exact absurd h (List.not_mem_nil _)
  | cons x xs ih =>
    intro h
    rw [idx0]
    by_cases hx : x = a
    · rw [if_pos hx]; simp
    · rw [if_neg hx]
      have : a ∈ xs := by
        rcases List.mem_cons.1 h with h' | h'
        · exact absurd h'.symm hx
        · exact h'
      simpa using ih this

theorem balance_pres (opt : Opt) (tape : Nat → ℚ) (P : List Nat → Prop)
    (sizes : List Nat) (hlen : sizes.length = opt.numTeams)
    (hm : ∀ ind f t p, t < opt.numTeams → P ind → P (movePlayer opt tape ind f t p).1) :
    ∀ (ind : List Nat) (p : Nat), P ind → P (balanceTeamSizes opt tape ind sizes p).1 := by
  intro ind p h
  rw [balanceTeamSizes]
  by_cases hg : 1 < maxNat sizes - minNat sizes
  · rw [if_pos hg]
    have hne : sizes ≠ [] := by
      intro he
      rw [he] at hg
      simp [maxNat, minNat] at hg
    have hmin : minNat sizes ∈ sizes := minNat_mem hne
    have hlt : idx0 (minNat sizes) sizes < opt.numTeams := by
      rw [← hlen]
      exact idx0_lt_of_mem hmin
    exact hm ind _ _ p hlt h
  · rw [if_neg hg]; exact h

theorem repairGo_pres (opt : Opt) (tape : Nat → ℚ) (P : List Nat → Prop)
    (hs : ∀ ind d r ps p, r < opt.numTeams →
      P ind → P (swapPositionPlayer opt tape ind d r ps p).1)
    (hm : ∀ ind f t p, t < opt.numTeams → P ind → P (movePlayer opt tape ind f t p).1) :
    ∀ (fuel : Nat) (ind : List Nat) (p : Nat),
      P ind → P (repairGo opt tape fuel ind p).ind := by
  intro fuel
  induction fuel with
  | zero => intro ind p h; exact h
  | succ n ih =>
    intro ind p h
    rw [repairGo]
    dsimp only
    have hlen : ((decodeIndividual opt ind).map List.length).length = opt.numTeams := by
      rw [List.length_map, length_decodeIndividual]
    split
    · exact ih _ _ (balance_pres opt tape P _ hlen hm ind p h)
    · split
      · exact h
      · have hs' : ∀ i d r ps q, r < (decodeIndividual opt ind).length →
            P i → P (swapPositionPlayer opt tape i d r ps q).1 := by
          intro i d r ps q hr hi
          exact hs i d r ps q (by rw [← length_decodeIndividual opt ind]; exact hr) hi
        rcases hrp : repairPositions opt tape ind (decodeIndividual opt ind) p with
          ⟨i', b, p'⟩
        have hPi' : P i' := by
          have := repairPositions_pres opt tape P (decodeIndividual opt ind) hs' ind p h
          rw [hrp] at this
          exact this
        cases b
        · dsimp only; exact hPi'
        · dsimp only; exact ih i' p' hPi'

theorem repairIndividual_pres (opt : Opt) (tape : Nat → ℚ) (P : List Nat → Prop)
    (hs : ∀ ind d r ps p, r < opt.numTeams →
      P ind → P (swapPositionPlayer opt tape ind d r ps p).1)
    (hm : ∀ ind f t p, t < opt.numTeams → P ind → P (movePlayer opt tape ind f t p).1)
    (ind : List Nat) (p : Nat) (h : P ind) :
    P (repairIndividual opt tape ind p).1 :=
  repairGo_pres opt tape P hs hm 100 ind p h

/-! ### The grouping invariant through each operator (claim C1) -/

theorem repairIndividual_groupInv (opt : Opt) (tape : Nat → ℚ) (hT : ValidTape tape)
    (ind : List Nat) (p : Nat) (hG : GroupInv opt ind) :
    GroupInv opt (repairIndividual opt tape ind p).1 :=
  repairIndividual_pres opt tape (GroupInv opt)
    (fun i d r ps q _ hq => swap_groupInv opt tape hT i d r ps q hq)
    (fun i f t q _ hq => movePlayer_groupInv opt tape hT i f t q hq)
    ind p hG

theorem mutateLoop_groupInv (opt : Opt) (tape : Nat → ℚ) :
    ∀ (is : List Nat) (ind : List Nat) (p : Nat),
      (∀ i ∈ is, isCoAssigned opt i = false) → GroupInv opt ind →
      GroupInv opt (mutateLoop opt tape is ind p).1 := by
  intro is
  induction is with
  | nil => intro ind p _ hG; exact hG
  | cons i rest ih =>
    intro ind p his hG
    rw [mutateLoop]
    by_cases hc : tape p < 1 / 10
    · rw [if_pos hc]
      dsimp only
      exact ih _ _ (fun i' hi' => his i' (List.mem_cons_of_mem _ hi'))
        (groupInv_set opt (his i (List.mem_cons_self _ _)) hG)
    · rw [if_neg hc]
      exact ih _ _ (fun i' hi' => his i' (List.mem_cons_of_mem _ hi')) hG

theorem mutate_groupInv (opt : Opt) (tape : Nat → ℚ) (hT : ValidTape tape)
    (ind : List Nat) (p : Nat) (hG : GroupInv opt ind) :
    GroupInv opt (mutate opt tape ind p).1 := by
  have hm1 : GroupInv opt (mutateLoop opt tape (nonCoAssignIdx opt) ind p).1 :=
    mutateLoop_groupInv opt tape (nonCoAssignIdx opt) ind p
      (fun i hi => by
        have := (List.mem_filter.1 hi).2
        simpa using this) hG
  rw [mutate]
  dsimp only
  by_cases h1 : 0 < (coAssignGroups opt).length
  · rw [if_pos h1]
    by_cases h2 : tape (mutateLoop opt tape (nonCoAssignIdx opt) ind p).2 < 1 / 10
    · rw [if_pos h2]
      dsimp only
      refine repairIndividual_groupInv opt tape hT _ _ ?_
      exact groupInv_setAll_entry opt
        (getD_mem _ _ _ (randFloor_lt tape hT _ _ h1)) hm1
    · rw [if_neg h2]
      exact repairIndividual_groupInv opt tape hT _ _ hm1
  · rw [if_neg h1]
    exact repairIndividual_groupInv opt tape hT _ _ hm1

theorem swapSeg_groupInv (opt : Opt) :
    ∀ (seg : List Nat) (pr : List Nat × List Nat),
      (∀ i ∈ seg, isCoAssigned opt i = false) →
      GroupInv opt pr.1 → GroupInv opt pr.2 →
      GroupInv opt (seg.foldl swapAt pr).1 ∧ GroupInv opt (seg.foldl swapAt pr).2 := by
  intro seg
  induction seg with
  | nil => intro pr _ h1 h2; exact ⟨h1, h2⟩
  | cons i rest ih =>
    intro pr hseg h1 h2
    rw [List.foldl_cons]
    have hco : isCoAssigned opt i = false := hseg i (List.mem_cons_self _ _)
    exact ih (swapAt pr i) (fun i' hi' => hseg i' (List.mem_cons_of_mem _ hi'))
      (groupInv_set opt hco h1) (groupInv_set opt hco h2)

theorem crossover_groupInv (opt : Opt) (tape : Nat → ℚ) (hT : ValidTape tape)
    (ind1 ind2 : List Nat) (p : Nat)
    (h1 : GroupInv opt ind1) (h2 : GroupInv opt ind2) :
    GroupInv opt (crossover opt tape ind1 ind2 p).1 ∧
      GroupInv opt (crossover opt tape ind1 ind2 p).2.1 := by
  have hseg : ∀ (a b : Nat),
      GroupInv opt ((((nonCoAssignIdx opt).drop a).take b).foldl swapAt (ind1, ind2)).1 ∧
      GroupInv opt ((((nonCoAssignIdx opt).drop a).take b).foldl swapAt (ind1, ind2)).2 := by
    intro a b
    refine swapSeg_groupInv opt _ (ind1, ind2) ?_ h1 h2
    intro i hi
    have hmem : i ∈ nonCoAssignIdx opt :=
      List.drop_subset a _ (List.take_subset b _ hi)
    have := (List.mem_filter.1 hmem).2
    simpa using this
  rw [crossover]
  dsimp only
  by_cases hc : tape p < 7 / 10
  · rw [if_pos hc]
    by_cases hn : 2 < (nonCoAssignIdx opt).length
    · rw [if_pos hn]
      dsimp only
      constructor
      · exact repairIndividual_groupInv opt tape hT _ _ (hseg _ _).1
      · exact repairIndividual_groupInv opt tape hT _ _ (hseg _ _).2
    · rw [if_neg hn]
      dsimp only
      exact ⟨repairIndividual_groupInv opt tape hT _ _ h1,
        repairIndividual_groupInv opt tape hT _ _ h2⟩
  · rw [if_neg hc]
    dsimp only
    exact ⟨repairIndividual_groupInv opt tape hT _ _ h1,
      repairIndividual_groupInv opt tape hT _ _ h2⟩

theorem setAll_true_getD_mono (asg : List Bool) (idxs : List Nat) (i : Nat)
    (h : asg.getD i false = true) : (setAll asg idxs true).getD i false = true := by
  have hlt : i < asg.length := by
    by_contra hge
    rw [List.getD_eq_getElem?_getD, List.getElem?_eq_none (by omega)] at h
    exact Bool.noConfusion h
  by_cases hm : i ∈ idxs
  · rw [List.getD_eq_getElem?_getD, getElem?_setAll_mem true idxs asg i hm hlt]
    rfl
  · rw [List.getD_eq_getElem?_getD, getElem?_setAll_not_mem true idxs asg i hm,
      ← List.getD_eq_getElem?_getD]
    exact h

theorem assignGroups_inv (opt : Opt) (tape : Nat → ℚ) (nT : Nat) :
    ∀ (es : List (Nat × List Nat)) (ind : List Nat) (asg : List Bool) (p : Nat),
      (∀ gl ∈ es, gl ∈ coAssignGroups opt) →
      ind.length = opt.players.length →
      asg.length = opt.players.length →
      ((∀ gl ∈ es, ∀ i ∈ gl.2, ∀ j ∈ gl.2,
          (assignGroups tape nT es ind asg p).1[i]? =
            (assignGroups tape nT es ind asg p).1[j]?) ∧
        (∀ i, (∀ gl ∈ es, i ∉ gl.2) →
          (assignGroups tape nT es ind asg p).1[i]? = ind[i]?) ∧
        (∀ gl ∈ es, ∀ i ∈ gl.2,
          (assignGroups tape nT es ind asg p).2.1.getD i false = true) ∧
        (∀ i, asg.getD i false = true →
          (assignGroups tape nT es ind asg p).2.1.getD i false = true)) := by
  intro es
  induction es with
  | nil =>
    intro ind asg p _ _ _
    exact ⟨by simp, fun i _ => rfl, by simp, fun i h => h⟩
  | cons gl0 rest ih =>
    intro ind asg p hsub hlen hlenA
    have hsub' : ∀ gl ∈ rest, gl ∈ coAssignGroups opt :=
      fun gl h => hsub gl (List.mem_cons_of_mem _ h)
    have hgl0 : gl0 ∈ coAssignGroups opt := hsub gl0 (List.mem_cons_self _ _)
    rw [assignGroups]
    obtain ⟨iha, ihb, ihc, ihd⟩ := ih (setAll ind gl0.2 (randFloor tape p nT).1)
      (setAll asg gl0.2 true) (randFloor tape p nT).2 hsub'
      (by rw [length_setAll]; exact hlen) (by rw [length_setAll]; exact hlenA)
    refine ⟨?_, ?_, ?_, ?_⟩
    · intro gl hgl i hi j hj
      rcases List.mem_cons.1 hgl with rfl | hgl'
      · by_cases hdup : gl ∈ rest
        · exact iha gl hdup i hi j hj
        · have hni : ∀ gl' ∈ rest, i ∉ gl'.2 := by
            intro gl' hgl' hmem
            exact hdup ((groups_disjoint opt hgl0 (hsub' gl' hgl') hi hmem) ▸ hgl')
          have hnj : ∀ gl' ∈ rest, j ∉ gl'.2 := by
            intro gl' hgl' hmem
            exact hdup ((groups_disjoint opt hgl0 (hsub' gl' hgl') hj hmem) ▸ hgl')
          rw [ihb i hni, ihb j hnj,
            getElem?_setAll_mem _ _ _ _ hi (by rw [hlen]; exact groups_mem_lt opt hgl0 hi),
            getElem?_setAll_mem _ _ _ _ hj (by rw [hlen]; exact groups_mem_lt opt hgl0 hj)]
      · exact iha gl hgl' i hi j hj
    · intro i hni
      rw [ihb i (fun gl h => hni gl (List.mem_cons_of_mem _ h)),
        getElem?_setAll_not_mem _ _ _ _ (hni gl0 (List.mem_cons_self _ _))]
    · intro gl hgl i hi
      rcases List.mem_cons.1 hgl with rfl | hgl'
      · refine ihd i ?_
        rw [List.getD_eq_getElem?_getD,
          getElem?_setAll_mem _ _ _ _ hi (by rw [hlenA]; exact groups_mem_lt opt hgl0 hi)]
        rfl
      · exact ihc gl hgl' i hi
    · intro i h
      exact ihd i (setAll_true_getD_mono asg gl0.2 i h)

theorem assignRest_keep (tape : Nat → ℚ) (nT : Nat) (asg : List Bool) :
    ∀ (is : List Nat) (ind : List Nat) (p : Nat) (i : Nat),
      asg.getD i false = true →
      (assignRest tape nT asg is ind p).1[i]? = ind[i]? := by
  intro is
  induction is with
  | nil => intro ind p i _; rfl
  | cons j rest ih =>
    intro ind p i hi
    rw [assignRest]
    by_cases hj : asg.getD j false = true
    · rw [if_pos hj]
      exact ih ind p i hi
    · rw [if_neg hj]
      dsimp only
      rw [ih _ _ i hi]
      exact List.getElem?_set_ne (fun hj' => hj (by rw [hj']; exact hi))

theorem createIndividual_groupInv (opt : Opt) (tape : Nat → ℚ) (p : Nat) :
    GroupInv opt (createIndividual opt tape p).1 := by
  intro gl hgl i hi j hj
  rw [createIndividual]
  obtain ⟨iha, _, ihc, _⟩ := assignGroups_inv opt tape opt.numTeams (coAssignGroups opt)
    (List.replicate opt.numPlayers 0) (List.replicate opt.numPlayers false) p
    (fun gl h => h) (by simp [Opt.numPlayers]) (by simp [Opt.numPlayers])
  rw [assignRest_keep tape opt.numTeams _ _ _ _ i (ihc gl hgl i hi),
    assignRest_keep tape opt.numTeams _ _ _ _ j (ihc gl hgl j hj)]
  exact iha gl hgl i hi j hj

/-- Claim C1: every individual built by `createIndividual` satisfies
the grouping invariant, and `mutate` and both offspring of `crossover`
preserve it — the repair step run inside these operators never breaks
it. -/
theorem claim_C1_grouping_invariant (opt : Opt) (tape : Nat → ℚ)
    (hT : ValidTape tape) :
    (∀ p, GroupInv opt (createIndividual opt tape p).1) ∧
      (∀ ind p, GroupInv opt ind → GroupInv opt (mutate opt tape ind p).1) ∧
      (∀ ind1 ind2 p, GroupInv opt ind1 → GroupInv opt ind2 →
        GroupInv opt (crossover opt tape ind1 ind2 p).1 ∧
          GroupInv opt (crossover opt tape ind1 ind2 p).2.1) :=
  ⟨fun p => createIndividual_groupInv opt tape p,
    fun ind p hG => mutate_groupInv opt tape hT ind p hG,
    fun ind1 ind2 p h1 h2 => crossover_groupInv opt tape hT ind1 ind2 p h1 h2⟩

/-- Witness for C1 on the grouped three-player instance: the tape
validity and input-invariant hypotheses are discharged concretely. -/
theorem claim_C1_grouping_invariant_witness :
    GroupInv instW (createIndividual instW tape0 0).1 ∧
      GroupInv instW (mutate instW tape0 [0, 0, 1] 0).1 ∧
      GroupInv instW (crossover instW tape0 [0, 0, 1] [1, 1, 0] 0).1 :=
  have hT : ValidTape tape0 := fun _ => ⟨by norm_num [tape0], by norm_num [tape0]⟩
  ⟨(claim_C1_grouping_invariant instW tape0 hT).1 0,
    (claim_C1_grouping_invariant instW tape0 hT).2.1 [0, 0, 1] 0
      (by unfold GroupInv; decide),
    ((claim_C1_grouping_invariant instW tape0 hT).2.2 [0, 0, 1] [1, 1, 0] 0
      (by unfold GroupInv; decide) (by unfold GroupInv; decide)).1⟩

/-! ### Validity of individuals through each operator (claim C9) -/

theorem valid_set (opt : Opt) {ind : List Nat} {k a : Nat}
    (hv : ValidInd opt ind) (ha : a < opt.numTeams) : ValidInd opt (ind.set k a) := by
  refine ⟨by rw [List.length_set]; exact hv.1, ?_⟩
  intro t ht
  rcases List.mem_or_eq_of_mem_set ht with h | h
  · exact hv.2 t h
  · rw [h]; exact ha

theorem valid_setAll (opt : Opt) {a : Nat} (ha : a < opt.numTeams) :
    ∀ (idxs : List Nat) {ind : List Nat}, ValidInd opt ind →
      ValidInd opt (setAll ind idxs a) := by
  intro idxs
  induction idxs with
  | nil => intro ind hv; exact hv
  | cons j rest ih =>
    intro ind hv
    rw [setAll_cons]
    exact ih (valid_set opt hv ha)

theorem getD_lt_of_valid {l : List Nat} {nT : Nat} (hv : ∀ t ∈ l, t < nT)
    (hnT : 0 < nT) (i : Nat) : l.getD i 0 < nT := by
  by_cases hi : i < l.length
  · rw [List.getD_eq_getElem _ _ hi]
    exact hv _ (List.getElem_mem hi)
  · rw [List.getD_eq_getElem?_getD, List.getElem?_eq_none (by omega)]
    exact hnT

theorem swap_valid (opt : Opt) (tape : Nat → ℚ) (ind : List Nat)
    (donor recip : Nat) (pos : String) (p : Nat)
    (hr : recip < opt.numTeams) (hv : ValidInd opt ind) :
    ValidInd opt (swapPositionPlayer opt tape ind donor recip pos p).1 := by
  by_cases h1 : swapDonors opt ind donor pos = []
  · rw [swap_false_eq opt tape ind donor recip pos p h1]
    exact hv
  · rw [swap_true_eq opt tape ind donor recip pos p h1]
    exact valid_set opt hv hr

theorem movePlayer_valid (opt : Opt) (tape : Nat → ℚ) (ind : List Nat)
    (fromT toT : Nat) (p : Nat) (ht : toT < opt.numTeams) (hv : ValidInd opt ind) :
    ValidInd opt (movePlayer opt tape ind fromT toT p).1 := by
  by_cases h1 : 0 < (moveNonCo opt ind fromT).length
  · rw [movePlayer, if_pos h1]
    exact valid_set opt hv ht
  · by_cases h2 : 0 < (moveFromIdx ind fromT).length
    · rcases hfind : (coAssignGroups opt).find?
          (fun gl => gl.2.contains
            ((moveFromIdx ind fromT).getD (randFloor tape p
              (moveFromIdx ind fromT).length).1 0)) with _ | gl
      · rw [movePlayer, if_neg h1, if_pos h2]
        dsimp only
        rw [hfind]
        exact valid_set opt hv ht
      · rw [movePlayer, if_neg h1, if_pos h2]
        dsimp only
        rw [hfind]
        exact valid_setAll opt ht gl.2 hv
    · rw [movePlayer, if_neg h1, if_neg h2]
      exact hv

theorem repairIndividual_valid (opt : Opt) (tape : Nat → ℚ) (ind : List Nat)
    (p : Nat) (hv : ValidInd opt ind) :
    ValidInd opt (repairIndividual opt tape ind p).1 :=
  repairIndividual_pres opt tape (ValidInd opt)
    (fun i d r ps q hrq hq => swap_valid opt tape i d r ps q hrq hq)
    (fun i f t q htq hq => movePlayer_valid opt tape i f t q htq hq)
    ind p hv

theorem mutateLoop_valid (opt : Opt) (tape : Nat → ℚ) (hT : ValidTape tape)
    (hnT : 0 < opt.numTeams) :
    ∀ (is : List Nat) (ind : List Nat) (p : Nat),
      ValidInd opt ind → ValidInd opt (mutateLoop opt tape is ind p).1 := by
  intro is
  induction is with
  | nil => intro ind p hv; exact hv
  | cons i rest ih =>
    intro ind p hv
    rw [mutateLoop]
    by_cases hc : tape p < 1 / 10
    · rw [if_pos hc]
      dsimp only
      exact ih _ _ (valid_set opt hv (randFloor_lt tape hT _ _ hnT))
    · rw [if_neg hc]
      exact ih _ _ hv

theorem mutate_valid (opt : Opt) (tape : Nat → ℚ) (hT : ValidTape tape)
    (hnT : 0 < opt.numTeams) (ind : List Nat) (p : Nat) (hv : ValidInd opt ind) :
    ValidInd opt (mutate opt tape ind p).1 := by
  have hm1 := mutateLoop_valid opt tape hT hnT (nonCoAssignIdx opt) ind p hv
  rw [mutate]
  dsimp only
  by_cases h1 : 0 < (coAssignGroups opt).length
  · rw [if_pos h1]
    by_cases h2 : tape (mutateLoop opt tape (nonCoAssignIdx opt) ind p).2 < 1 / 10
    · rw [if_pos h2]
      dsimp only
      refine repairIndividual_valid opt tape _ _ ?_
      exact valid_setAll opt (randFloor_lt tape hT _ _ hnT) _ hm1
    · rw [if_neg h2]
      exact repairIndividual_valid opt tape _ _ hm1
  · rw [if_neg h1]
    exact repairIndividual_valid opt tape _ _ hm1

theorem swapSeg_valid (opt : Opt) (hnT : 0 < opt.numTeams) :
    ∀ (seg : List Nat) (pr : List Nat × List Nat),
      ValidInd opt pr.1 → ValidInd opt pr.2 →
      ValidInd opt (seg.foldl swapAt pr).1 ∧ ValidInd opt (seg.foldl swapAt pr).2 := by
  intro seg
  induction seg with
  | nil => intro pr h1 h2; exact ⟨h1, h2⟩
  | cons i rest ih =>
    intro pr h1 h2
    rw [List.foldl_cons]
    refine ih (swapAt pr i) ?_ ?_
    · exact valid_set opt h1 (getD_lt_of_valid h2.2 hnT i)
    · exact valid_set opt h2 (getD_lt_of_valid h1.2 hnT i)

theorem crossover_valid (opt : Opt) (tape : Nat → ℚ) (hnT : 0 < opt.numTeams)
    (ind1 ind2 : List Nat) (p : Nat)
    (h1 : ValidInd opt ind1) (h2 : ValidInd opt ind2) :
    ValidInd opt (crossover opt tape ind1 ind2 p).1 ∧
      ValidInd opt (crossover opt tape ind1 ind2 p).2.1 := by
  have hseg := swapSeg_valid opt hnT
  rw [crossover]
  dsimp only
  by_cases hc : tape p < 7 / 10
  · rw [if_pos hc]
    by_cases hn : 2 < (nonCoAssignIdx opt).length
    · rw [if_pos hn]
      dsimp only
      exact ⟨repairIndividual_valid opt tape _ _ (hseg _ (ind1, ind2) h1 h2).1,
        repairIndividual_valid opt tape _ _ (hseg _ (ind1, ind2) h1 h2).2⟩
    · rw [if_neg hn]
      dsimp only
      exact ⟨repairIndividual_valid opt tape _ _ h1,
        repairIndividual_valid opt tape _ _ h2⟩
  · rw [if_neg hc]
    dsimp only
    exact ⟨repairIndividual_valid opt tape _ _ h1,
      repairIndividual_valid opt tape _ _ h2⟩

theorem assignGroups_valid (opt : Opt) (tape : Nat → ℚ) (hT : ValidTape tape)
    (hnT : 0 < opt.numTeams) :
    ∀ (es : List (Nat × List Nat)) (ind : List Nat) (asg : List Bool) (p : Nat),
      ValidInd opt ind →
      ValidInd opt (assignGroups tape opt.numTeams es ind asg p).1 := by
  intro es
  induction es with
  | nil => intro ind asg p hv; exact hv
  | cons gl0 rest ih =>
    intro ind asg p hv
    rw [assignGroups]
    exact ih _ _ _ (valid_setAll opt (randFloor_lt tape hT _ _ hnT) gl0.2 hv)

theorem assignRest_valid (opt : Opt) (tape : Nat → ℚ) (hT : ValidTape tape)
    (hnT : 0 < opt.numTeams) (asg : List Bool) :
    ∀ (is : List Nat) (ind : List Nat) (p : Nat),
      ValidInd opt ind →
      ValidInd opt (assignRest tape opt.numTeams asg is ind p).1 := by
  intro is
  induction is with
  | nil => intro ind p hv; exact hv
  | cons j rest ih =>
    intro ind p hv
    rw [assignRest]
    by_cases hj : asg.getD j false = true
    · rw [if_pos hj]
      exact ih _ _ hv
    · rw [if_neg hj]
      dsimp only
      exact ih _ _ (valid_set opt hv (randFloor_lt tape hT _ _ hnT))

theorem createIndividual_valid (opt : Opt) (tape : Nat → ℚ) (hT : ValidTape tape)
    (hnT : 0 < opt.numTeams) (p : Nat) :
    ValidInd opt (createIndividual opt tape p).1 := by
  rw [createIndividual]
  refine assignRest_valid opt tape hT hnT _ _ _ _ ?_
  refine assignGroups_valid opt tape hT hnT _ _ _ _ ?_
  exact ⟨by simp [Opt.numPlayers], fun t ht => by
    rw [List.eq_of_mem_replicate ht]; exact hnT⟩

/-- Claim C9: every operation producing or transforming an individual
keeps it well-formed — the array length stays `numPlayers` and every
cell stays a team index below `numTeams` — given well-formed inputs. -/
theorem claim_C9_operator_validity (opt : Opt) (tape : Nat → ℚ)
    (hT : ValidTape tape) (hnT : 0 < opt.numTeams) :
    (∀ p, ValidInd opt (createIndividual opt tape p).1) ∧
      (∀ ind p, ValidInd opt ind → ValidInd opt (mutate opt tape ind p).1) ∧
      (∀ ind1 ind2 p, ValidInd opt ind1 → ValidInd opt ind2 →
        ValidInd opt (crossover opt tape ind1 ind2 p).1 ∧
          ValidInd opt (crossover opt tape ind1 ind2 p).2.1) ∧
      (∀ ind p, ValidInd opt ind → ValidInd opt (repairIndividual opt tape ind p).1) :=
  ⟨fun p => createIndividual_valid opt tape hT hnT p,
    fun ind p hv => mutate_valid opt tape hT hnT ind p hv,
    fun ind1 ind2 p h1 h2 => crossover_valid opt tape hnT ind1 ind2 p h1 h2,
    fun ind p hv => repairIndividual_valid opt tape ind p hv⟩

/-- Witness for C9 on the grouped three-player instance. -/
theorem claim_C9_operator_validity_witness :
    ValidInd instW (createIndividual instW tape0 0).1 ∧
      ValidInd instW (mutate instW tape0 [0, 0, 1] 0).1 ∧
      ValidInd instW (repairIndividual instW tape0 [1, 1, 0] 0).1 :=
  have hT : ValidTape tape0 := fun _ => ⟨by norm_num [tape0], by norm_num [tape0]⟩
  ⟨(claim_C9_operator_validity instW tape0 hT (by decide)).1 0,
    (claim_C9_operator_validity instW tape0 hT (by decide)).2.1 [0, 0, 1] 0
      (by unfold ValidInd; decide),
    (claim_C9_operator_validity instW tape0 hT (by decide)).2.2.2 [1, 1, 0] 0
      (by unfold ValidInd; decide)⟩

/-! ### The generation loop: best tracking and the event log -/

theorem foldl_min_le (xs : List ℚ) :
    ∀ (a : ℚ), xs.foldl min a ≤ a ∧ ∀ x ∈ xs, xs.foldl min a ≤ x := by
  induction xs with
  | nil => intro a; exact ⟨le_refl a, by simp⟩
  | cons y ys ih =>
    intro a
    rw [List.foldl_cons]
    rcases ih (min a y) with ⟨h1, h2⟩
    refine ⟨le_trans h1 (min_le_left a y), ?_⟩
    intro x hx
    rcases List.mem_cons.1 hx with rfl | hx'
    · exact le_trans h1 (min_le_right a x)
    · exact h2 x hx'

theorem minQ_le (l : List ℚ) : ∀ x ∈ l, minQ l ≤ x := by
  cases l with
  | nil => simp
  | cons a xs =>
    intro x hx
    rw [minQ]
    rcases List.mem_cons.1 hx with rfl | hx'
    · exact (foldl_min_le xs x).1
    · exact (foldl_min_le xs a).2 x hx'

theorem foldl_min_mem_q : ∀ (xs : List ℚ) (a : ℚ), xs.foldl min a ∈ a :: xs := by
  intro xs
  induction xs with
  | nil => intro a; exact List.mem_singleton.2 rfl
  | cons y ys ih =>
    intro a
    rw [List.foldl_cons]
    rcases List.mem_cons.1 (ih (min a y)) with h | h
    · rw [h]
      rcases min_choice a y with h2 | h2 <;> rw [h2]
      · exact List.mem_cons_self _ _
      · exact List.mem_cons_of_mem _ (List.mem_cons_self _ _)
    · exact List.mem_cons_of_mem _ (List.mem_cons_of_mem _ h)

theorem minQ_mem {l : List ℚ} (h : l ≠ []) : minQ l ∈ l := by
  cases l with
  | nil => exact absurd rfl h
  | cons a xs => exact foldl_min_mem_q xs a

theorem idx0_getD {α : Type} [DecidableEq α] {a : α} (d : α) :
    ∀ {l : List α}, a ∈ l → l.getD (idx0 a l) d = a := by
  intro l
  induction l with
  | nil => intro h; exact absurd h (List.not_mem_nil _)
  | cons x xs ih =>
    intro h
    rw [idx0]
    by_cases hx : x = a
    · rw [if_pos hx]; exact hx
    · rw [if_neg hx]
      have hmem : a ∈ xs := by
        rcases List.mem_cons.1 h with h' | h'
        · exact absurd h'.symm hx
        · exact h'
      exact ih hmem

theorem getD_map_lt (f : List Nat → ℚ) {l : List (List Nat)} {i : Nat}
    (h : i < l.length) : (l.map f).getD i 0 = f (l.getD i []) := by
  rw [List.getD_eq_getElem _ _ (by rw [List.length_map]; exact h),
    List.getD_eq_getElem _ _ h, List.getElem_map]

theorem genStep_popLog (opt : Opt) (tape : Nat → ℚ) (g : Nat) (s : GenState) :
    (genStep opt tape g s).popLog = s.popLog ++ [s.population] := by
  rw [genStep]

theorem genStep_bestLog (opt : Opt) (tape : Nat → ℚ) (g : Nat) (s : GenState) :
    (genStep opt tape g s).bestLog =
      s.bestLog ++ [((genStep opt tape g s).best.getD ([], 0)).2] := by
  rw [genStep]

theorem genStep_events (opt : Opt) (tape : Nat → ℚ) (g : Nat) (s : GenState) :
    (genStep opt tape g s).events =
      s.events ++ (if g % 10 = 0 then
        [⟨g, ((genStep opt tape g s).best.getD ([], 0)).2,
          meanQ (s.population.map (evaluate opt)), false⟩] else []) := by
  rw [genStep]
  by_cases hg : g % 10 = 0
  · rw [if_pos hg, if_pos hg]
  · rw [if_neg hg, if_neg hg, List.append_nil]

theorem genStep_population_ne (opt : Opt) (tape : Nat → ℚ) (g : Nat) (s : GenState) :
    (genStep opt tape g s).population ≠ [] := by
  rw [genStep]
  exact List.cons_ne_nil _ _

theorem genStep_best_def (opt : Opt) (tape : Nat → ℚ) (g : Nat) (s : GenState) :
    (genStep opt tape g s).best =
      (match s.best with
       | none =>
         if (s.population.map (evaluate opt)).length = 0 then none
         else some (s.population.getD
             (idx0 (minQ (s.population.map (evaluate opt)))
               (s.population.map (evaluate opt))) [],
           minQ (s.population.map (evaluate opt)))
       | some (b, bf) =>
         if (s.population.map (evaluate opt)).length = 0 then some (b, bf)
         else if minQ (s.population.map (evaluate opt)) < bf then
           some (s.population.getD
               (idx0 (minQ (s.population.map (evaluate opt)))
                 (s.population.map (evaluate opt))) [],
             minQ (s.population.map (evaluate opt)))
         else some (b, bf)) := by
  rw [genStep]

theorem genStep_best_spec (opt : Opt) (tape : Nat → ℚ) (g : Nat) (s : GenState)
    (hne : s.population ≠ [])
    (hprev : ∀ b0 f0, s.best = some (b0, f0) → evaluate opt b0 = f0) :
    ∃ b f, (genStep opt tape g s).best = some (b, f) ∧ evaluate opt b = f ∧
      (∀ ind ∈ s.population, f ≤ evaluate opt ind) ∧
      (∀ b0 f0, s.best = some (b0, f0) →
        f ≤ f0 ∧ (b ∈ s.population ∨ (b = b0 ∧ f = f0))) ∧
      (s.best = none → b ∈ s.population) := by
  have hfits_ne : s.population.map (evaluate opt) ≠ [] := by simpa using hne
  have hflen : ¬ (s.population.map (evaluate opt)).length = 0 := by
    simpa [List.length_eq_zero] using hfits_ne
  have hminmem := minQ_mem hfits_ne
  have hidx := idx0_lt_of_mem hminmem
  have hplen : idx0 (minQ (s.population.map (evaluate opt)))
      (s.population.map (evaluate opt)) < s.population.length := by
    rw [← List.length_map s.population (evaluate opt)]
    exact hidx
  have heval : evaluate opt (s.population.getD
      (idx0 (minQ (s.population.map (evaluate opt)))
        (s.population.map (evaluate opt))) []) =
      minQ (s.population.map (evaluate opt)) := by
    rw [← getD_map_lt (evaluate opt) hplen]
    exact idx0_getD 0 hminmem
  have hbmem := getD_mem s.population
    (idx0 (minQ (s.population.map (evaluate opt))) (s.population.map (evaluate opt)))
    [] hplen
  have hminle : ∀ ind ∈ s.population,
      minQ (s.population.map (evaluate opt)) ≤ evaluate opt ind :=
    fun ind hind => minQ_le _ _ (List.mem_map_of_mem _ hind)
  cases hsb : s.best with
  | none =>
    refine ⟨_, _, ?_, heval, hminle, ?_, fun _ => hbmem⟩
    · rw [genStep_best_def, hsb]
      dsimp only
      rw [if_neg hflen]
    · intro b0 f0 h0
      simp at h0
  | some bp =>
    obtain ⟨b0, f0⟩ := bp
    by_cases hlt : minQ (s.population.map (evaluate opt)) < f0
    · refine ⟨_, _, ?_, heval, hminle, ?_, fun h => by simp at h⟩
      · rw [genStep_best_def, hsb]
        dsimp only
        rw [if_neg hflen, if_pos hlt]
      · intro b1 f1 h1
        have heq := Option.some_inj.1 h1
        have hb1 : b0 = b1 := congrArg Prod.fst heq
        have hf1 : f0 = f1 := congrArg Prod.snd heq
        subst hb1
        subst hf1
        exact ⟨le_of_lt hlt, Or.inl hbmem⟩
    · have hle : f0 ≤ minQ (s.population.map (evaluate opt)) := not_lt.1 hlt
      refine ⟨b0, f0, ?_, hprev b0 f0 hsb, ?_, ?_,
        fun h => by simp at h⟩
      · rw [genStep_best_def, hsb]
        dsimp only
        rw [if_neg hflen, if_neg hlt]
      · exact fun ind hind => le_trans hle (hminle ind hind)
      · intro b1 f1 h1
        have heq := Option.some_inj.1 h1
        have hb1 : b0 = b1 := congrArg Prod.fst heq
        have hf1 : f0 = f1 := congrArg Prod.snd heq
        subst hb1
        subst hf1
        exact ⟨le_refl f0, Or.inr ⟨rfl, rfl⟩⟩

theorem genStep_inv (opt : Opt) (tape : Nat → ℚ) (g : Nat) (s : GenState)
    (h : RunInv opt s) : RunInv opt (genStep opt tape g s) := by
  obtain ⟨hne, hI2, hI3, hI4, hI5, hI6, hI7⟩ := h
  obtain ⟨b, f, hbest, hev, hmin, hsome, hnone⟩ := genStep_best_spec opt tape g s hne hI2
  have hbp : (genStep opt tape g s).best.getD ([], 0) = (b, f) := by rw [hbest]; rfl
  refine ⟨genStep_population_ne opt tape g s, ?_, ?_, ?_, ?_, ?_, ?_⟩
  · intro b' f' hb'
    rw [hbest] at hb'
    have heq := Option.some_inj.1 hb'
    have hb1 : b = b' := congrArg Prod.fst heq
    have hf1 : f = f' := congrArg Prod.snd heq
    subst hb1
    subst hf1
    exact hev
  · intro b' f' hb' popu hpopu ind hind
    rw [hbest] at hb'
    have heq := Option.some_inj.1 hb'
    have hf1 : f = f' := congrArg Prod.snd heq
    subst hf1
    rw [genStep_popLog] at hpopu
    rcases List.mem_append.1 hpopu with hold | hnew
    · cases hsb : s.best with
      | none =>
        rw [(hI4 hsb).1] at hold
        exact absurd hold (List.not_mem_nil popu)
      | some bp =>
        obtain ⟨b0, f0⟩ := bp
        exact le_trans (hsome b0 f0 hsb).1 (hI3 b0 f0 hsb popu hold ind hind)
    · rw [List.mem_singleton.1 hnew] at hind
      exact hmin ind hind
  · intro hn
    rw [hbest] at hn
    exact Option.noConfusion hn
  · intro b' f' hb'
    rw [hbest] at hb'
    have heq := Option.some_inj.1 hb'
    have hb1 : b = b' := congrArg Prod.fst heq
    subst hb1
    rw [genStep_popLog]
    cases hsb : s.best with
    | none =>
      exact ⟨s.population, List.mem_append.2 (Or.inr (List.mem_singleton.2 rfl)),
        hnone hsb⟩
    | some bp =>
      obtain ⟨b0, f0⟩ := bp
      rcases (hsome b0 f0 hsb).2 with hmem | ⟨hb0, _⟩
      · exact ⟨s.population, List.mem_append.2 (Or.inr (List.mem_singleton.2 rfl)), hmem⟩
      · rcases hI5 b0 f0 hsb with ⟨popu, hpopu, hbmem⟩
        exact ⟨popu, List.mem_append.2 (Or.inl hpopu), by rw [hb0]; exact hbmem⟩
  · rw [genStep_bestLog, hbp]
    refine List.chain'_append.2 ⟨hI6, List.chain'_singleton f, ?_⟩
    intro x hx y hy
    simp only [List.head?_cons, Option.mem_def, Option.some.injEq] at hy
    subst hy
    cases hsb : s.best with
    | none =>
      rw [(hI4 hsb).2] at hx
      simp at hx
    | some bp =>
      obtain ⟨b0, f0⟩ := bp
      exact le_trans (hsome b0 f0 hsb).1 (hI7 b0 f0 hsb x hx)
  · intro b' f' hb' x hx
    rw [hbest] at hb'
    have heq := Option.some_inj.1 hb'
    have hf1 : f = f' := congrArg Prod.snd heq
    subst hf1
    rw [genStep_bestLog, hbp] at hx
    rw [List.getLast?_concat] at hx
    simp only [Option.mem_def, Option.some.injEq] at hx
    subst hx
    exact le_refl f

theorem runGens_inv (opt : Opt) (tape : Nat → ℚ) :
    ∀ (n g : Nat) (s : GenState), RunInv opt s → RunInv opt (runGens opt tape n g s) := by
  intro n
  induction n with
  | zero => intro g s h; exact h
  | succ m ih =>
    intro g s h
    rw [runGens]
    exact ih (g + 1) (genStep opt tape g s) (genStep_inv opt tape g s h)

theorem runGens_log (opt : Opt) (tape : Nat → ℚ) :
    ∀ (n g : Nat) (s : GenState),
      s.popLog.length = g → s.bestLog.length = g →
      ((runGens opt tape n g s).popLog.length = g + n ∧
        (runGens opt tape n g s).bestLog.length = g + n ∧
        (∃ t, (runGens opt tape n g s).popLog = s.popLog ++ t) ∧
        (∃ t, (runGens opt tape n g s).bestLog = s.bestLog ++ t) ∧
        (runGens opt tape n g s).events = s.events ++
          (((List.range' g n).filter (fun k => k % 10 = 0)).map
            (fun k => ⟨k, (runGens opt tape n g s).bestLog.getD k 0,
              meanQ (((runGens opt tape n g s).popLog.getD k []).map (evaluate opt)),
              false⟩))) := by
  intro n
  induction n with
  | zero =>
    intro g s hp hb
    exact ⟨by simpa using hp, by simpa using hb, ⟨[], by simp [runGens]⟩,
      ⟨[], by simp [runGens]⟩, by simp [runGens]⟩
  | succ m ih =>
    intro g s hp hb
    rw [runGens]
    set s1 := genStep opt tape g s with hs1
    have hp1 : s1.popLog.length = g + 1 := by
      rw [hs1, genStep_popLog, List.length_append, hp]
      rfl
    have hb1 : s1.bestLog.length = g + 1 := by
      rw [hs1, genStep_bestLog, List.length_append, hb]
      rfl
    obtain ⟨ihl, ihbl, ⟨tp, htp⟩, ⟨tb, htb⟩, ihe⟩ := ih (g + 1) s1 hp1 hb1
    set s' := runGens opt tape m (g + 1) s1 with hs'
    have hblg : s'.bestLog.getD g 0 = (s1.best.getD ([], 0)).2 := by
      rw [htb, List.getD_eq_getElem?_getD, List.getElem?_append,
        if_pos (by rw [hb1]; omega)]
      conv_lhs => rw [hs1, genStep_bestLog, ← hb]
      rw [List.getElem?_concat_length]
      rfl
    have hplg : s'.popLog.getD g [] = s.population := by
      rw [htp, List.getD_eq_getElem?_getD, List.getElem?_append,
        if_pos (by rw [hp1]; omega)]
      conv_lhs => rw [hs1, genStep_popLog, ← hp]
      rw [List.getElem?_concat_length]
      rfl
    refine ⟨by rw [ihl]; omega, by rw [ihbl]; omega,
      ⟨[s.population] ++ tp, by rw [htp, hs1, genStep_popLog, List.append_assoc]⟩,
      ⟨[(s1.best.getD ([], 0)).2] ++ tb, by
        rw [htb]
        conv_lhs => rw [hs1, genStep_bestLog]
        rw [List.append_assoc]⟩, ?_⟩
    by_cases hg : g % 10 = 0
    · rw [ihe]
      conv_lhs => rw [hs1, genStep_events, if_pos hg]
      rw [List.range'_succ, List.filter_cons_of_pos (by simpa using hg), List.map_cons,
        hblg, hplg, List.append_assoc]
      rfl
    · rw [ihe]
      conv_lhs => rw [hs1, genStep_events, if_neg hg]
      rw [List.append_nil, List.range'_succ,
        List.filter_cons_of_neg (by simpa using hg)]

/-! ### The concrete run on the two-shortstop instance (claims C2 and C7) -/

set_option maxRecDepth 9000

theorem eval_inst2_00 : evaluate inst2 [0, 0] = 390005 / 2 := by
  have hdec : decodeIndividual inst2 [0, 0] = [[0, 1], []] := by decide
  rw [evaluate]
  rw [hdec]
  simp +decide only [teamPenalty, getPositionCount, getPlayer, isOutfielder, inst2,
    mkPlayer, requiredPositions, List.foldl, List.filter, List.map, List.length,
    groupSplitPenalty, coAssignGroups, buildGo, minNat, maxNat, coachPenalty,
    variance, sumQ, getAverageSkill, getAverageAttendance, getSkillVariance,
    List.getD, Opt.numPlayers, List.dedup]
  norm_num

theorem eval_inst2_10 : evaluate inst2 [1, 0] = 182000 := by
  have hdec : decodeIndividual inst2 [1, 0] = [[1], [0]] := by decide
  rw [evaluate]
  rw [hdec]
  simp +decide only [teamPenalty, getPositionCount, getPlayer, isOutfielder, inst2,
    mkPlayer, requiredPositions, List.foldl, List.filter, List.map, List.length,
    groupSplitPenalty, coAssignGroups, buildGo, minNat, maxNat, coachPenalty,
    variance, sumQ, getAverageSkill, getAverageAttendance, getSkillVariance,
    List.getD, Opt.numPlayers, List.dedup]
  norm_num

theorem run_inst2 : optimizeFull inst2 tape0 0 =
    ⟨[0, 0], 390005 / 2, [[0, 1], []],
      [⟨0, 390005 / 2, 390005 / 2, false⟩, ⟨1, 390005 / 2, 390005 / 2, true⟩],
      [[[0, 0], [0, 0]]], [390005 / 2], [[0, 0], [0, 0], [0, 0], [1, 0]],
      [[0, 0], [1, 0]]⟩ := by
  have hmkpop : mkPopulation inst2 tape0 2 0 = ([[0, 0], [0, 0]], 4) := by
    with_unfolding_all decide
  have hfill : fillPop inst2 tape0 [[0, 0], [0, 0]] [390005 / 2, 390005 / 2] 1 4 =
      ([[1, 0]], 23) := by
    with_unfolding_all decide
  have hdec : decodeIndividual inst2 [0, 0] = [[0, 1], []] := by decide
  have hmean : meanQ [390005 / 2, 390005 / 2] = 390005 / 2 := by
    norm_num [meanQ, sumQ]
  have hps : inst2.populationSize = 2 := rfl
  have hgs : inst2.generations = 1 := rfl
  rw [optimizeFull, hps, hgs, hmkpop]
  simp only [runGens, genStep, List.map_cons, List.map_nil, eval_inst2_00, minQ,
    List.foldl, min_self, List.length_cons, List.length_nil, idx0, List.getD,
    List.getD_cons_zero, show inst2.populationSize - 1 = 1 from rfl, hfill, hmean,
    hdec, List.nil_append, List.cons_append, List.append_nil, Option.getD]
  norm_num [hdec]

/-! ### Generic facts for the amended run-level claims -/

theorem mkPopulation_length (opt : Opt) (tape : Nat → ℚ) :
    ∀ (n p : Nat), (mkPopulation opt tape n p).1.length = n := by
  intro n
  induction n with
  | zero => intro p; rfl
  | succ m ih =>
    intro p
    rw [mkPopulation]
    dsimp only
    rw [List.length_cons, ih]

theorem genStep_best_isSome (opt : Opt) (tape : Nat → ℚ) (g : Nat) (s : GenState)
    (h : s.population ≠ [] ∨ s.best.isSome) : (genStep opt tape g s).best.isSome := by
  rw [genStep_best_def]
  rcases hsb : s.best with _ | ⟨b, bf⟩
  · dsimp only
    rcases h with h | h
    · rw [if_neg (by simpa [List.length_eq_zero] using h)]
      rfl
    · rw [hsb] at h
      simp at h
  · dsimp only
    by_cases h0 : (s.population.map (evaluate opt)).length = 0
    · rw [if_pos h0]
      rfl
    · rw [if_neg h0]
      by_cases h1 : minQ (s.population.map (evaluate opt)) < bf
      · rw [if_pos h1]
        rfl
      · rw [if_neg h1]
        rfl

theorem runGens_best_isSome (opt : Opt) (tape : Nat → ℚ) :
    ∀ (n g : Nat) (s : GenState), s.best.isSome → (runGens opt tape n g s).best.isSome := by
  intro n
  induction n with
  | zero => intro g s h; exact h
  | succ m ih =>
    intro g s h
    rw [runGens]
    exact ih (g + 1) _ (genStep_best_isSome opt tape g s (Or.inr h))

/-- **C2**, counterexample. On the two-shortstop instance with the all-zero
tape, the individual `[1, 0]` is generated during the run (it enters the
final population, so it is logged in `allGen`), yet its fitness 182000 is
strictly below the returned best fitness 390005/2: offspring created in
the final generation are never evaluated, so the returned individual need
not have fitness ≤ every individual ever generated. -/
theorem claim_C2_counterexample :
    [1, 0] ∈ (optimizeFull inst2 tape0 0).allGen ∧
      evaluate inst2 [1, 0] < (optimizeFull inst2 tape0 0).bestFit := by
  rw [run_inst2, eval_inst2_10]
  exact ⟨by decide, by norm_num⟩

/-- **C7**, counterexample. On the two-shortstop instance the completion
event carries `avgFitness = 390005/2`, equal to the best fitness, while the
mean fitness of the current (final) population is `754005/4`: the source
fills the completion event's mean-fitness field with `bestFitness`, not
with the population mean. -/
theorem claim_C7_counterexample :
    (optimizeFull inst2 tape0 0).events.getLast? =
        some ⟨1, 390005 / 2, 390005 / 2, true⟩ ∧
      meanQ ((optimizeFull inst2 tape0 0).finalPop.map (evaluate inst2)) = 754005 / 4 ∧
      (390005 / 2 : ℚ) ≠ 754005 / 4 := by
  rw [run_inst2]
  refine ⟨rfl, ?_, by norm_num⟩
  dsimp only
  rw [List.map_cons, List.map_cons, List.map_nil, eval_inst2_00, eval_inst2_10]
  norm_num [meanQ, sumQ]

/-- **C2** (amended). Elitism over everything the run *evaluates*: when the
population and generation counts are positive, the returned individual
evaluates exactly to the returned best fitness, that fitness is ≤ the
fitness of every individual of every evaluated generation (the `popLog`
entries), the returned individual was drawn from one of those evaluated
populations, the returned team list is decoded from it, and the
per-generation best-fitness curve never increases. -/
theorem claim_C2_amended_elitism (opt : Opt) (tape : Nat → ℚ) (p : Nat)
    (hpop : 0 < opt.populationSize) (hgen : 0 < opt.generations) :
    evaluate opt (optimizeFull opt tape p).best = (optimizeFull opt tape p).bestFit ∧
      (∀ popu ∈ (optimizeFull opt tape p).popLog, ∀ ind ∈ popu,
        (optimizeFull opt tape p).bestFit ≤ evaluate opt ind) ∧
      (∃ popu ∈ (optimizeFull opt tape p).popLog, (optimizeFull opt tape p).best ∈ popu) ∧
      (optimizeFull opt tape p).teams =
        decodeIndividual opt (optimizeFull opt tape p).best ∧
      List.Chain' (fun a c => c ≤ a) (optimizeFull opt tape p).bestLog := by
  have hne0 : (mkPopulation opt tape opt.populationSize p).1 ≠ [] := by
    intro hnil
    have hlen := mkPopulation_length opt tape opt.populationSize p
    rw [hnil] at hlen
    simp at hlen
    omega
  set s0 : GenState := ⟨(mkPopulation opt tape opt.populationSize p).1, none,
    (mkPopulation opt tape opt.populationSize p).2, [], [], [],
    (mkPopulation opt tape opt.populationSize p).1⟩ with hs0
  have hinv0 : RunInv opt s0 :=
    ⟨hne0, fun b f h => Option.noConfusion h, fun b f h => Option.noConfusion h,
      fun _ => ⟨rfl, rfl⟩, fun b f h => Option.noConfusion h, List.chain'_nil,
      fun b f h => Option.noConfusion h⟩
  have hinv : RunInv opt (runGens opt tape opt.generations 0 s0) :=
    runGens_inv opt tape opt.generations 0 s0 hinv0
  have hsome : (runGens opt tape opt.generations 0 s0).best.isSome := by
    obtain ⟨m, hm⟩ : ∃ m, opt.generations = m + 1 := ⟨opt.generations - 1, by omega⟩
    rw [hm, runGens]
    exact runGens_best_isSome opt tape m 1 _
      (genStep_best_isSome opt tape 0 s0 (Or.inl hne0))
  obtain ⟨⟨b, f⟩, hbf⟩ := Option.isSome_iff_exists.1 hsome
  have hopt : optimizeFull opt tape p =
      ⟨((runGens opt tape opt.generations 0 s0).best.getD ([], 0)).1,
        ((runGens opt tape opt.generations 0 s0).best.getD ([], 0)).2,
        decodeIndividual opt
          ((runGens opt tape opt.generations 0 s0).best.getD ([], 0)).1,
        (runGens opt tape opt.generations 0 s0).events ++
          [⟨opt.generations,
            ((runGens opt tape opt.generations 0 s0).best.getD ([], 0)).2,
            ((runGens opt tape opt.generations 0 s0).best.getD ([], 0)).2, true⟩],
        (runGens opt tape opt.generations 0 s0).popLog,
        (runGens opt tape opt.generations 0 s0).bestLog,
        (runGens opt tape opt.generations 0 s0).allGen,
        (runGens opt tape opt.generations 0 s0).population⟩ := rfl
  obtain ⟨hI1, hI2, hI3, hI4, hI5, hI6, hI7⟩ := hinv
  rw [hopt]
  dsimp only
  rw [hbf]
  dsimp only [Option.getD]
  exact ⟨hI2 b f hbf, fun popu hp ind hi => hI3 b f hbf popu hp ind hi,
    hI5 b f hbf, rfl, hI6⟩

/-- Witness for the amended C2 theorem at the two-shortstop instance. -/
theorem claim_C2_amended_elitism_witness :
    0 < inst2.populationSize ∧ 0 < inst2.generations ∧
      (evaluate inst2 (optimizeFull inst2 tape0 0).best =
          (optimizeFull inst2 tape0 0).bestFit ∧
        (∀ popu ∈ (optimizeFull inst2 tape0 0).popLog, ∀ ind ∈ popu,
          (optimizeFull inst2 tape0 0).bestFit ≤ evaluate inst2 ind) ∧
        (∃ popu ∈ (optimizeFull inst2 tape0 0).popLog,
          (optimizeFull inst2 tape0 0).best ∈ popu) ∧
        (optimizeFull inst2 tape0 0).teams =
          decodeIndividual inst2 (optimizeFull inst2 tape0 0).best ∧
        List.Chain' (fun a c => c ≤ a) (optimizeFull inst2 tape0 0).bestLog) :=
  ⟨by decide, by decide, claim_C2_amended_elitism inst2 tape0 0 (by decide) (by decide)⟩

/-- **C7** (amended). The event stream of a run is exactly: one progress
event per generation index divisible by 10, carrying that generation's
best-so-far fitness and the mean fitness of the population evaluated in
that generation, with `completed = false`; followed by exactly one
completion event with `completed = true` whose mean-fitness field is
filled with the final best fitness (not with a population mean). -/
theorem claim_C7_amended_progress_events (opt : Opt) (tape : Nat → ℚ) (p : Nat) :
    (optimizeFull opt tape p).events =
      (((List.range opt.generations).filter (fun k => k % 10 = 0)).map
        (fun k => ⟨k, (optimizeFull opt tape p).bestLog.getD k 0,
          meanQ (((optimizeFull opt tape p).popLog.getD k []).map (evaluate opt)),
          false⟩)) ++
      [⟨opt.generations, (optimizeFull opt tape p).bestFit,
        (optimizeFull opt tape p).bestFit, true⟩] := by
  dsimp only [optimizeFull]
  obtain ⟨hpl, hbl, htp, htb, he⟩ := runGens_log opt tape opt.generations 0
    ⟨(mkPopulation opt tape opt.populationSize p).1, none,
      (mkPopulation opt tape opt.populationSize p).2, [], [], [],
      (mkPopulation opt tape opt.populationSize p).1⟩ rfl rfl
  rw [he, List.nil_append, List.range_eq_range']

end TeamSolver
